import Mathlib

/-!
Byte streams of `src/core/util/byte_stream.cc`.

A shallow embedding of the bounded input and output cursors of
`kovri::core` and proofs of their contracts.

Model:

* A `std::uint8_t` is a `Byte` (`Fin 256`).
* The memory a cursor points into is a total map from addresses to bytes;
  a `std::uint8_t*` held by a cursor is the address (a natural number).
  Pointer arithmetic that leaves the address space is undefined in C++, so
  addresses do not wrap.
* A `std::size_t` is a natural number; the only `size_t` addition of the
  file, `m_Counter += amount`, is taken modulo `2 ^ 64`.  The subtractions
  `m_Length -= amount` are guarded by `amount <= m_Length`.
* A member function that can throw returns the pair of its outcome
  (`Except Exception _`) and the object as the call leaves it, so that what
  a throwing call has already mutated stays visible.
* The buffer handed to `GetFormattedHex` is given by the bytes read through
  the pointer, `data i` being `data[i]`; its `std::ostringstream` is the
  `String` built so far.
* A `boost::asio::ip::address` is its tag together with the bytes
  `to_bytes()` returns.
-/

namespace kovri.core

/-- One `std::uint8_t`. -/
abbrev Byte := Fin 256

/-- Addressable memory: the byte stored at each address. -/
abbrev Memory := Nat → Byte

/-- The exceptions thrown by the byte streams, with their `what()` text. -/
inductive Exception where
  | length_error (what : String)
  | runtime_error (what : String)
  deriving DecidableEq, Repr

deriving instance DecidableEq for Except

/-- Number of values of a `std::size_t`. -/
def SIZE_MOD : Nat := 2 ^ 64

/-! ## Big-endian primitives (`core/util/i2p_endian.h`) -/

/-- Modelled from the spec: the big-endian decoding primitive behind
`bufbe16toh`, `bufbe32toh` and `bufbe64toh` of `core/util/i2p_endian.h`,
a header that is not among the sources.  Spec 4.1: a byte sequence is
interpreted as an unsigned integer, most significant byte first. -/
def beDecode (bytes : List Byte) : Nat :=
  bytes.foldl (fun acc b => acc * 256 + b.val) 0

/-- Modelled from the spec: the big-endian encoding primitive behind
`htobe16buf`, `htobe32buf` and `htobe64buf` of `core/util/i2p_endian.h`.
Spec 4.1: the `n`-byte big-endian representation of an unsigned integer,
most significant byte first. -/
def beEncode : Nat → Nat → List Byte
  | 0, _ => []
  | n + 1, v => Fin.ofNat (v / 256 ^ n) :: beEncode n v

/-- Modelled from the spec: `bufbe16toh(buf)` of `core/util/i2p_endian.h`,
the value of the 2 bytes at `buf`, big-endian. -/
def bufbe16toh (mem : Memory) (buf : Nat) : Nat :=
  beDecode ((List.range 2).map (fun i => mem (buf + i)))

/-- Modelled from the spec: `bufbe32toh(buf)` of `core/util/i2p_endian.h`,
the value of the 4 bytes at `buf`, big-endian. -/
def bufbe32toh (mem : Memory) (buf : Nat) : Nat :=
  beDecode ((List.range 4).map (fun i => mem (buf + i)))

/-- Modelled from the spec: `bufbe64toh(buf)` of `core/util/i2p_endian.h`,
the value of the 8 bytes at `buf`, big-endian. -/
def bufbe64toh (mem : Memory) (buf : Nat) : Nat :=
  beDecode ((List.range 8).map (fun i => mem (buf + i)))

/-- Modelled from the spec: `htobe16buf(buf, v)` of `core/util/i2p_endian.h`,
the contents of the 2-byte array `buf` after the call. -/
def htobe16buf (v : Nat) : List Byte := beEncode 2 v

/-- Modelled from the spec: `htobe32buf(buf, v)` of `core/util/i2p_endian.h`,
the contents of the 4-byte array `buf` after the call. -/
def htobe32buf (v : Nat) : List Byte := beEncode 4 v

/-- Modelled from the spec: `htobe64buf(buf, v)` of `core/util/i2p_endian.h`,
the contents of the 8-byte array `buf` after the call. -/
def htobe64buf (v : Nat) : List Byte := beEncode 8 v

/-! ## Input -/

/-- State of an `InputByteStream`: the read pointer and the bytes left. -/
structure InputByteStream where
  m_Data : Nat
  m_Length : Nat
  deriving DecidableEq, Repr

/-- Constructor `InputByteStream::InputByteStream(data, len)`. -/
def InputByteStream.construct (data len : Nat) : InputByteStream :=
  { m_Data := data, m_Length := len }

/-- Member `InputByteStream::ConsumeData(amount)`. -/
def InputByteStream.ConsumeData (s : InputByteStream) (amount : Nat) :
    Except Exception Unit × InputByteStream :=
  if amount > s.m_Length then
    (.error (.length_error "InputByteStream: too many bytes to consume."), s)
  else
    (.ok (), { m_Data := s.m_Data + amount, m_Length := s.m_Length - amount })

/-- Member `InputByteStream::ReadBytes(amount)`: the pointer held before
consuming. -/
def InputByteStream.ReadBytes (s : InputByteStream) (amount : Nat) :
    Except Exception Nat × InputByteStream :=
  let ptr := s.m_Data
  match s.ConsumeData amount with
  | (.error e, s') => (.error e, s')
  | (.ok _, s') => (.ok ptr, s')

/-- Member `InputByteStream::ReadUInt64()`. -/
def InputByteStream.ReadUInt64 (mem : Memory) (s : InputByteStream) :
    Except Exception Nat × InputByteStream :=
  match s.ReadBytes 8 with
  | (.error e, s') => (.error e, s')
  | (.ok ptr, s') => (.ok (bufbe64toh mem ptr), s')

/-- Member `InputByteStream::ReadUInt32()`. -/
def InputByteStream.ReadUInt32 (mem : Memory) (s : InputByteStream) :
    Except Exception Nat × InputByteStream :=
  match s.ReadBytes 4 with
  | (.error e, s') => (.error e, s')
  | (.ok ptr, s') => (.ok (bufbe32toh mem ptr), s')

/-- Member `InputByteStream::ReadUInt16()`. -/
def InputByteStream.ReadUInt16 (mem : Memory) (s : InputByteStream) :
    Except Exception Nat × InputByteStream :=
  match s.ReadBytes 2 with
  | (.error e, s') => (.error e, s')
  | (.ok ptr, s') => (.ok (bufbe16toh mem ptr), s')

/-- Member `InputByteStream::ReadUInt8()`: the byte the returned pointer
points at. -/
def InputByteStream.ReadUInt8 (mem : Memory) (s : InputByteStream) :
    Except Exception Byte × InputByteStream :=
  match s.ReadBytes 1 with
  | (.error e, s') => (.error e, s')
  | (.ok ptr, s') => (.ok (mem ptr), s')

/-! ## Output -/

/-- State of an `OutputByteStream`: the write pointer, the capacity left,
the bytes produced so far and the capacity the stream was built with. -/
structure OutputByteStream where
  m_Data : Nat
  m_Length : Nat
  m_Counter : Nat
  m_Size : Nat
  deriving DecidableEq, Repr

/-- Constructor `OutputByteStream::OutputByteStream(data, len)`. -/
def OutputByteStream.construct (data len : Nat) : OutputByteStream :=
  { m_Data := data, m_Length := len, m_Counter := 0, m_Size := len }

/-- Member `OutputByteStream::ProduceData(amount)`. -/
def OutputByteStream.ProduceData (s : OutputByteStream) (amount : Nat) :
    Except Exception Unit × OutputByteStream :=
  if amount > s.m_Length then
    (.error (.length_error "OutputByteStream: too many bytes to produce."), s)
  else
    (.ok (),
      { s with
        m_Data := s.m_Data + amount
        m_Length := s.m_Length - amount
        m_Counter := (s.m_Counter + amount) % SIZE_MOD })

/-- A call `std::memcpy(dst, src, n)` where the source is given by the bytes
read through it: `src i` is `src[i]`.  The source does not overlap the
destination. -/
def memcpy (mem : Memory) (dst : Nat) (src : Nat → Byte) (n : Nat) : Memory :=
  fun a => if dst ≤ a ∧ a < dst + n then src (a - dst) else mem a

/-- Pointer to the first element of a local array: element `i` is `buf[i]`. -/
def arrayPtr (buf : List Byte) : Nat → Byte :=
  fun i => buf.getD i 0

/-- Member `OutputByteStream::WriteData(data, len)`.  The source `data` is
`none` for a null pointer and otherwise the bytes read through it. -/
def OutputByteStream.WriteData (mem : Memory) (s : OutputByteStream)
    (data : Option (Nat → Byte)) (len : Nat) :
    Except Exception Unit × Memory × OutputByteStream :=
  if len = 0 then
    (.ok (), mem, s)
  else
    match data with
    | none => (.error (.runtime_error "OutputByteStream: null data"), mem, s)
    | some src =>
      let ptr := s.m_Data
      match s.ProduceData len with
      | (.error e, s') => (.error e, mem, s')
      | (.ok _, s') => (.ok (), memcpy mem ptr src len, s')

/-- Member `OutputByteStream::WriteUInt8(data)`. -/
def OutputByteStream.WriteUInt8 (mem : Memory) (s : OutputByteStream)
    (data : Byte) : Except Exception Unit × Memory × OutputByteStream :=
  s.WriteData mem (some (arrayPtr [data])) 1

/-- Member `OutputByteStream::WriteUInt16(data)`. -/
def OutputByteStream.WriteUInt16 (mem : Memory) (s : OutputByteStream)
    (data : Nat) : Except Exception Unit × Memory × OutputByteStream :=
  let buf := htobe16buf data
  s.WriteData mem (some (arrayPtr buf)) 2

/-- Member `OutputByteStream::WriteUInt32(data)`. -/
def OutputByteStream.WriteUInt32 (mem : Memory) (s : OutputByteStream)
    (data : Nat) : Except Exception Unit × Memory × OutputByteStream :=
  let buf := htobe32buf data
  s.WriteData mem (some (arrayPtr buf)) 4

/-- Member `OutputByteStream::WriteUInt64(data)`. -/
def OutputByteStream.WriteUInt64 (mem : Memory) (s : OutputByteStream)
    (data : Nat) : Except Exception Unit × Memory × OutputByteStream :=
  let buf := htobe64buf data
  s.WriteData mem (some (arrayPtr buf)) 8

/-- Member `OutputByteStream::GetPosition()`. -/
def OutputByteStream.GetPosition (s : OutputByteStream) : Nat := s.m_Data

/-- Member `OutputByteStream::GetData()`. -/
def OutputByteStream.GetData (s : OutputByteStream) : Nat := s.m_Data - s.m_Counter

/-- Member `OutputByteStream::GetSize()`. -/
def OutputByteStream.GetSize (s : OutputByteStream) : Nat := s.m_Size

/-- The class invariant of an `OutputByteStream`: what has been produced and
what is left add up to the capacity, which is a `std::size_t`. -/
def OutputByteStream.wellFormed (s : OutputByteStream) : Prop :=
  s.m_Counter + s.m_Length = s.m_Size ∧ s.m_Size < SIZE_MOD

instance (s : OutputByteStream) : Decidable s.wellFormed := by
  unfold OutputByteStream.wellFormed; exact inferInstance

/-- One call on an `OutputByteStream`, with its arguments. -/
inductive OutputCall where
  | ProduceData (amount : Nat)
  | WriteData (data : Option (Nat → Byte)) (len : Nat)
  | WriteUInt8 (data : Byte)
  | WriteUInt16 (data : Nat)
  | WriteUInt32 (data : Nat)
  | WriteUInt64 (data : Nat)

/-- Performs one call on the cursor `s` over the memory `mem`. -/
def OutputCall.run (c : OutputCall) (mem : Memory) (s : OutputByteStream) :
    Except Exception Unit × Memory × OutputByteStream :=
  match c with
  | .ProduceData amount => ((s.ProduceData amount).1, mem, (s.ProduceData amount).2)
  | .WriteData data len => s.WriteData mem data len
  | .WriteUInt8 data => s.WriteUInt8 mem data
  | .WriteUInt16 data => s.WriteUInt16 mem data
  | .WriteUInt32 data => s.WriteUInt32 mem data
  | .WriteUInt64 data => s.WriteUInt64 mem data

/-- Performs a sequence of calls in order; a call that throws is caught by
the caller, who goes on with the object as the call left it. -/
def runCalls : List OutputCall → Memory × OutputByteStream → Memory × OutputByteStream
  | [], st => st
  | c :: cs, st => runCalls cs (c.run st.1 st.2).2

/-- The big-endian value of the `n` bytes at address `pos`, as the
specification words it: the sum over `i < n` of `byte[pos + i] * 256 ^ (n - 1 - i)`. -/
def bigEndianValue (mem : Memory) (pos n : Nat) : Nat :=
  ((List.range n).map (fun i => (mem (pos + i)).val * 256 ^ (n - 1 - i))).sum

/-- Text of the exception `ConsumeData` throws. -/
def inputOutOfBounds : Exception :=
  .length_error "InputByteStream: too many bytes to consume."

/-- Text of the exception `ProduceData` throws. -/
def outputOutOfBounds : Exception :=
  .length_error "OutputByteStream: too many bytes to produce."

/-- Text of the exception `WriteData` throws for a null source. -/
def nullSource : Exception :=
  .runtime_error "OutputByteStream: null data"

/-- A memory used in examples: address `a` holds `a + 1` modulo 256. -/
def sampleMemory : Memory := fun a => Fin.ofNat (a + 1)

/-- One call on an `InputByteStream`, with its arguments. -/
inductive InputCall where
  | ConsumeData (amount : Nat)
  | ReadBytes (amount : Nat)
  | ReadUInt8
  | ReadUInt16
  | ReadUInt32
  | ReadUInt64
  deriving DecidableEq, Repr

/-- Performs one call on the input cursor `s` over the memory `mem` and
keeps the cursor as the call leaves it, whether it returns or throws. -/
def InputCall.run (c : InputCall) (mem : Memory) (s : InputByteStream) : InputByteStream :=
  match c with
  | .ConsumeData amount => (s.ConsumeData amount).2
  | .ReadBytes amount => (s.ReadBytes amount).2
  | .ReadUInt8 => (s.ReadUInt8 mem).2
  | .ReadUInt16 => (s.ReadUInt16 mem).2
  | .ReadUInt32 => (s.ReadUInt32 mem).2
  | .ReadUInt64 => (s.ReadUInt64 mem).2

/-- Performs a sequence of calls on an input cursor, in order. -/
def runInputCalls (mem : Memory) : List InputCall → InputByteStream → InputByteStream
  | [], s => s
  | c :: cs, s => runInputCalls mem cs (c.run mem s)

/-- The `n` bytes of memory that start at address `base`. -/
def bytesAt (mem : Memory) (base n : Nat) : List Byte :=
  (List.range n).map (fun i => mem (base + i))

/-- The bytes of memory from address `first` up to, not including, `last`. -/
def memoryRange (mem : Memory) (first last : Nat) : List Byte :=
  bytesAt mem first (last - first)

/-- Whether a call is one of the writes `WriteData`, `WriteUInt8/16/32/64`. -/
def OutputCall.isWrite : OutputCall → Bool
  | .ProduceData _ => false
  | _ => true

/-- The byte string a write puts into the buffer when it returns normally:
the first `len` bytes of the source for `WriteData`, the byte itself for
`WriteUInt8`, the big-endian encoding of the value for the wider writes. -/
def OutputCall.bytes : OutputCall → List Byte
  | .ProduceData _ => []
  | .WriteData none _ => []
  | .WriteData (some src) len => (List.range len).map src
  | .WriteUInt8 data => [data]
  | .WriteUInt16 data => htobe16buf data
  | .WriteUInt32 data => htobe32buf data
  | .WriteUInt64 data => htobe64buf data

/-- The byte strings of the calls of a sequence that return normally, in call
order; a call that throws contributes nothing. -/
def successfulWrites : List OutputCall → Memory × OutputByteStream → List (List Byte)
  | [], _ => []
  | c :: cs, st =>
    match (c.run st.1 st.2).1 with
    | .ok _ => c.bytes :: successfulWrites cs (c.run st.1 st.2).2
    | .error _ => successfulWrites cs (c.run st.1 st.2).2

/-! ## Hex dump -/

/-- The text inserted by
`hex << std::hex << std::setfill('0') << std::setw(2) << static_cast<std::uint16_t>(b)`:
the digits of `b` in base 16, lower case, padded on the left with `'0'` to a
width of 2. -/
def hexByteText (b : Byte) : String :=
  let digits := Nat.toDigits 16 b.val
  String.mk (List.replicate (2 - digits.length) '0' ++ digits)

/-- Local state of the loop of `GetFormattedHex`: the stream and the two
counters. -/
structure HexLoop where
  hex : String
  count : Nat
  sub_count : Nat

/-- One iteration, for index `i`, of the loop of `GetFormattedHex`.  Here
`size - 1` is only evaluated inside the loop, where `size` is positive. -/
def hexLoopBody (data : Nat → Byte) (size : Nat) (st : HexLoop) (i : Nat) : HexLoop :=
  let hex := st.hex ++ hexByteText (data i) ++ " "
  let count := st.count + 1
  let closes := count == 32 || i == size - 1
  let hex := if closes then hex ++ " |" ++ "\n\t" else hex
  let count := if closes then 0 else count
  let sub_count := st.sub_count + 1
  let separates := sub_count == 8 && i != size - 1
  let hex := if separates then hex ++ " |  " else hex
  let sub_count := if separates then 0 else sub_count
  { hex := hex, count := count, sub_count := sub_count }

/-- Function `GetFormattedHex(data, size)`: the loop runs for `i` from 0 up
to `size - 1`; byte `i` of the buffer is `data i`. -/
def GetFormattedHex (data : Nat → Byte) (size : Nat) : String :=
  ((List.range size).foldl (hexLoopBody data size)
    { hex := "\n\t" ++ " |  ", count := 0, sub_count := 0 }).hex ++ "\n"

/-- The consecutive chunks of `n` elements of a list, the last one possibly
shorter: chunk `k` is made of the elements `k * n`, ..., `k * n + n - 1`. -/
def chunks {α : Type} (n : Nat) (l : List α) : List (List α) :=
  (List.range ((l.length + n - 1) / n)).map (fun k => (l.drop (k * n)).take n)

/-- The lower-case hexadecimal digit of a number below 16. -/
def hexDigit (n : Nat) : Char := "0123456789abcdef".toList.getD n '0'

/-- A byte as two lower-case hexadecimal digits. -/
def hexPair (b : Byte) : String := String.mk [hexDigit (b.val / 16), hexDigit (b.val % 16)]

/-- A group of bytes as the specification words it: each byte as two digits
followed by one space. -/
def hexGroup (g : List Byte) : String := String.join (g.map (fun b => hexPair b ++ " "))

/-- A row as the specification words it: the leading marker, the groups of 8
bytes of the chunk joined by the separator, the trailing marker. -/
def hexRow (chunk : List Byte) : String :=
  "\n\t |  " ++ String.intercalate " |  " ((chunks 8 chunk).map hexGroup) ++ " |"

/-- The hex dump as the specification words it: one row for each chunk of 32
bytes, then `"\n\t\n"`. -/
def hexDump (bytes : List Byte) : String :=
  String.join ((chunks 32 bytes).map hexRow) ++ "\n\t\n"

/-- The separators and groups that follow the first group of a row. -/
def hexSeps (y : List Byte) : String :=
  String.join ((chunks 8 y).map (fun g => " |  " ++ hexGroup g))

/-- The rows of a list of bytes, one after the other. -/
def hexRows (z : List Byte) : String :=
  String.join ((chunks 32 z).map hexRow)

/-- The text the loop emits for the bytes that remain, when `r` places are
left in the current row and `r8` in the current group. -/
def hexTail : Nat → Nat → List Byte → String
  | _, _, [] => ""
  | r, r8, b :: rest =>
    match rest with
    | [] => hexPair b ++ " " ++ (" |" ++ "\n\t")
    | _ :: _ =>
      hexPair b ++ " " ++ ((if r = 1 then " |" ++ "\n\t" else "") ++
        ((if r8 = 1 then " |  " else "") ++
          hexTail (if r = 1 then 32 else r - 1) (if r8 = 1 then 8 else r8 - 1) rest))

/-! ## Address -/

/-- Modelled from the spec: a `boost::asio::ip::address`, a type of the Boost
library: a parsed network address tagged as IPv4 or IPv6 (spec 4.5), given
by the array `to_v4().to_bytes()` of 4 bytes or `to_v6().to_bytes()` of 16
bytes, in network order. -/
inductive Address where
  | v4 (bytes : List Byte) (size_eq : bytes.length = 4)
  | v6 (bytes : List Byte) (size_eq : bytes.length = 16)

/-- Member `address::is_v4()`. -/
def Address.is_v4 : Address → Bool
  | .v4 _ _ => true
  | .v6 _ _ => false

/-- The array `address.to_v4().to_bytes()`; `to_v4()` throws for an address
that is not IPv4, a case `AddressToByteVector` does not evaluate. -/
def Address.to_v4_bytes : Address → List Byte
  | .v4 bytes _ => bytes
  | .v6 _ _ => []

/-- The array `address.to_v6().to_bytes()`; `to_v6()` throws for an address
that is not IPv6, a case `AddressToByteVector` does not evaluate. -/
def Address.to_v6_bytes : Address → List Byte
  | .v4 _ _ => []
  | .v6 bytes _ => bytes

/-- Function `AddressToByteVector(address)`: a vector of 4 or 16 zero bytes is
allocated and `data->size()` bytes are copied into its storage, taken here as
the memory that starts at address 0. -/
def AddressToByteVector (address : Address) : List Byte :=
  let is_v4 := address.is_v4
  let data : List Byte := List.replicate (if is_v4 then 4 else 16) 0
  let src := if is_v4 then arrayPtr address.to_v4_bytes else arrayPtr address.to_v6_bytes
  bytesAt (memcpy (arrayPtr data) 0 src data.length) 0 data.length

/-! ## Input cursor: consuming -/

theorem ConsumeData_of_gt (s : InputByteStream) (amount : Nat) (h : amount > s.m_Length) :
    s.ConsumeData amount = (.error inputOutOfBounds, s) := by
  simp [InputByteStream.ConsumeData, inputOutOfBounds, h]

theorem ConsumeData_of_le (s : InputByteStream) (amount : Nat) (h : amount ≤ s.m_Length) :
    s.ConsumeData amount =
      (.ok (), { m_Data := s.m_Data + amount, m_Length := s.m_Length - amount }) := by
  have h' : ¬ amount > s.m_Length := by omega
  simp [InputByteStream.ConsumeData, h']

theorem ReadBytes_of_gt (s : InputByteStream) (amount : Nat) (h : amount > s.m_Length) :
    s.ReadBytes amount = (.error inputOutOfBounds, s) := by
  simp [InputByteStream.ReadBytes, ConsumeData_of_gt s amount h]

theorem ReadBytes_of_le (s : InputByteStream) (amount : Nat) (h : amount ≤ s.m_Length) :
    s.ReadBytes amount =
      (.ok s.m_Data, { m_Data := s.m_Data + amount, m_Length := s.m_Length - amount }) := by
  simp [InputByteStream.ReadBytes, ConsumeData_of_le s amount h]

/-- C2: `ConsumeData(amount)` throws, and then it throws `std::length_error`,
exactly when `amount` exceeds the remaining length; in every other case it
returns normally; and a call that throws leaves the position and the
remaining length as they were. -/
theorem ConsumeData_fails_iff (s : InputByteStream) (amount : Nat) :
    ((∃ e, (s.ConsumeData amount).1 = .error e) ↔ amount > s.m_Length) ∧
    ((s.ConsumeData amount).1 = .error inputOutOfBounds ↔ amount > s.m_Length) ∧
    ((s.ConsumeData amount).1 = .ok () ↔ ¬ amount > s.m_Length) ∧
    (∀ e, (s.ConsumeData amount).1 = .error e →
      (s.ConsumeData amount).2.m_Data = s.m_Data ∧
      (s.ConsumeData amount).2.m_Length = s.m_Length) := by
  by_cases h : amount > s.m_Length
  · simp [ConsumeData_of_gt s amount h, h]
  · have hle : amount ≤ s.m_Length := by omega
    simp [ConsumeData_of_le s amount hle, h]

/-- Witness of C2: consuming 6 of 5 remaining bytes throws and leaves the
cursor alone. -/
theorem ConsumeData_fails_iff_witness :
    (InputByteStream.ConsumeData ⟨3, 5⟩ 6).1 = .error inputOutOfBounds ∧
    (InputByteStream.ConsumeData ⟨3, 5⟩ 6).2.m_Data = 3 ∧
    (InputByteStream.ConsumeData ⟨3, 5⟩ 6).2.m_Length = 5 :=
  ⟨(ConsumeData_fails_iff ⟨3, 5⟩ 6).2.1.mpr (by decide),
   (ConsumeData_fails_iff ⟨3, 5⟩ 6).2.2.2 inputOutOfBounds (by decide)⟩

/-- C3: with `r` bytes remaining, `ConsumeData(r)` returns normally, moves the
position forward by `r` and leaves nothing remaining, while
`ConsumeData(r + 1)` throws `std::length_error` and leaves the cursor as it
was. -/
theorem ConsumeData_boundary (s : InputByteStream) :
    s.ConsumeData s.m_Length = (.ok (), { m_Data := s.m_Data + s.m_Length, m_Length := 0 }) ∧
    s.ConsumeData (s.m_Length + 1) = (.error inputOutOfBounds, s) := by
  constructor
  · rw [ConsumeData_of_le s s.m_Length (Nat.le_refl _)]
    simp
  · exact ConsumeData_of_gt s (s.m_Length + 1) (by omega)

/-! ## Input cursor: fixed-width reads -/

theorem bufbe16toh_eq (mem : Memory) (p : Nat) : bufbe16toh mem p = bigEndianValue mem p 2 := by
  simp [bufbe16toh, beDecode, bigEndianValue, List.range_succ]

theorem bufbe32toh_eq (mem : Memory) (p : Nat) : bufbe32toh mem p = bigEndianValue mem p 4 := by
  simp [bufbe32toh, beDecode, bigEndianValue, List.range_succ]
  ring

theorem bufbe64toh_eq (mem : Memory) (p : Nat) : bufbe64toh mem p = bigEndianValue mem p 8 := by
  simp [bufbe64toh, beDecode, bigEndianValue, List.range_succ]
  ring

/-- C4: for each width of 1, 2, 4 and 8 bytes: when at least that many bytes
remain, the read returns the big-endian value of the next bytes at the
position and moves the cursor forward by exactly the width; when fewer
remain, it throws `std::length_error` and leaves the cursor as it was. -/
theorem ReadUInt_spec (mem : Memory) (s : InputByteStream) :
    ((1 ≤ s.m_Length →
        ((s.ReadUInt8 mem).1.map Fin.val = .ok (bigEndianValue mem s.m_Data 1) ∧
         (s.ReadUInt8 mem).2 = { m_Data := s.m_Data + 1, m_Length := s.m_Length - 1 })) ∧
      (s.m_Length < 1 → s.ReadUInt8 mem = (.error inputOutOfBounds, s))) ∧
    ((2 ≤ s.m_Length →
        s.ReadUInt16 mem = (.ok (bigEndianValue mem s.m_Data 2),
          { m_Data := s.m_Data + 2, m_Length := s.m_Length - 2 })) ∧
      (s.m_Length < 2 → s.ReadUInt16 mem = (.error inputOutOfBounds, s))) ∧
    ((4 ≤ s.m_Length →
        s.ReadUInt32 mem = (.ok (bigEndianValue mem s.m_Data 4),
          { m_Data := s.m_Data + 4, m_Length := s.m_Length - 4 })) ∧
      (s.m_Length < 4 → s.ReadUInt32 mem = (.error inputOutOfBounds, s))) ∧
    ((8 ≤ s.m_Length →
        s.ReadUInt64 mem = (.ok (bigEndianValue mem s.m_Data 8),
          { m_Data := s.m_Data + 8, m_Length := s.m_Length - 8 })) ∧
      (s.m_Length < 8 → s.ReadUInt64 mem = (.error inputOutOfBounds, s))) := by
  refine ⟨⟨?_, ?_⟩, ⟨?_, ?_⟩, ⟨?_, ?_⟩, ⟨?_, ?_⟩⟩
  · intro h
    simp [InputByteStream.ReadUInt8, ReadBytes_of_le s 1 h, bigEndianValue, Except.map,
      List.range_succ]
  · intro h
    simp [InputByteStream.ReadUInt8, ReadBytes_of_gt s 1 h]
  · intro h
    simp [InputByteStream.ReadUInt16, ReadBytes_of_le s 2 h, bufbe16toh_eq]
  · intro h
    simp [InputByteStream.ReadUInt16, ReadBytes_of_gt s 2 h]
  · intro h
    simp [InputByteStream.ReadUInt32, ReadBytes_of_le s 4 h, bufbe32toh_eq]
  · intro h
    simp [InputByteStream.ReadUInt32, ReadBytes_of_gt s 4 h]
  · intro h
    simp [InputByteStream.ReadUInt64, ReadBytes_of_le s 8 h, bufbe64toh_eq]
  · intro h
    simp [InputByteStream.ReadUInt64, ReadBytes_of_gt s 8 h]

/-- Witness of C4: a 32-bit read with 5 bytes remaining, and one with 3. -/
theorem ReadUInt_spec_witness :
    InputByteStream.ReadUInt32 sampleMemory ⟨3, 5⟩ =
      (.ok (bigEndianValue sampleMemory 3 4), { m_Data := 3 + 4, m_Length := 5 - 4 }) ∧
    InputByteStream.ReadUInt32 sampleMemory ⟨3, 3⟩ = (.error inputOutOfBounds, ⟨3, 3⟩) :=
  ⟨(ReadUInt_spec sampleMemory ⟨3, 5⟩).2.2.1.1 (by decide),
   (ReadUInt_spec sampleMemory ⟨3, 3⟩).2.2.1.2 (by decide)⟩

/-! ## Output cursor: producing and writing -/

theorem ProduceData_of_gt (s : OutputByteStream) (amount : Nat) (h : amount > s.m_Length) :
    s.ProduceData amount = (.error outputOutOfBounds, s) := by
  simp [OutputByteStream.ProduceData, outputOutOfBounds, h]

theorem ProduceData_of_le (s : OutputByteStream) (amount : Nat) (h : amount ≤ s.m_Length) :
    s.ProduceData amount =
      (.ok (), { m_Data := s.m_Data + amount, m_Length := s.m_Length - amount,
                 m_Counter := (s.m_Counter + amount) % SIZE_MOD, m_Size := s.m_Size }) := by
  have h' : ¬ amount > s.m_Length := by omega
  simp [OutputByteStream.ProduceData, h']

theorem counter_add_lt (s : OutputByteStream) (amount : Nat) (hwf : s.wellFormed)
    (h : amount ≤ s.m_Length) : (s.m_Counter + amount) % SIZE_MOD = s.m_Counter + amount := by
  obtain ⟨h1, h2⟩ := hwf
  exact Nat.mod_eq_of_lt (by omega)

theorem WriteData_of_gt (mem : Memory) (s : OutputByteStream) (src : Nat → Byte) (len : Nat)
    (h : len > s.m_Length) :
    s.WriteData mem (some src) len = (.error outputOutOfBounds, mem, s) := by
  have h0 : len ≠ 0 := by omega
  simp [OutputByteStream.WriteData, h0, ProduceData_of_gt s len h]

theorem WriteData_of_le (mem : Memory) (s : OutputByteStream) (src : Nat → Byte) (len : Nat)
    (h0 : 0 < len) (h : len ≤ s.m_Length) :
    s.WriteData mem (some src) len =
      (.ok (), memcpy mem s.m_Data src len,
        { m_Data := s.m_Data + len, m_Length := s.m_Length - len,
          m_Counter := (s.m_Counter + len) % SIZE_MOD, m_Size := s.m_Size }) := by
  have h0' : len ≠ 0 := by omega
  simp [OutputByteStream.WriteData, h0', ProduceData_of_le s len h]

theorem WriteData_of_zero (mem : Memory) (s : OutputByteStream) (data : Option (Nat → Byte)) :
    s.WriteData mem data 0 = (.ok (), mem, s) := by
  simp [OutputByteStream.WriteData]

theorem WriteData_of_null (mem : Memory) (s : OutputByteStream) (len : Nat) (h : len > 0) :
    s.WriteData mem none len = (.error nullSource, mem, s) := by
  have h0 : len ≠ 0 := by omega
  simp [OutputByteStream.WriteData, h0, nullSource]

/-- C5: for a cursor in a well-formed state, a non-null source and a length
`len` with `0 < len <= remaining capacity`, `WriteData(source, len)` returns
normally; afterwards the memory at the old position holds `source[0..len)`,
every other byte of memory is unchanged, the position and the produced count
have grown by `len`, and the remaining capacity has shrunk by `len`. -/
theorem WriteData_effect (mem : Memory) (s : OutputByteStream) (src : Nat → Byte) (len : Nat)
    (hwf : s.wellFormed) (h0 : 0 < len) (hle : len ≤ s.m_Length) :
    (s.WriteData mem (some src) len).1 = .ok () ∧
    (∀ i, i < len → (s.WriteData mem (some src) len).2.1 (s.m_Data + i) = src i) ∧
    (∀ a, ¬ (s.m_Data ≤ a ∧ a < s.m_Data + len) →
      (s.WriteData mem (some src) len).2.1 a = mem a) ∧
    (s.WriteData mem (some src) len).2.2.GetPosition = s.GetPosition + len ∧
    (s.WriteData mem (some src) len).2.2.m_Counter = s.m_Counter + len ∧
    (s.WriteData mem (some src) len).2.2.m_Length + len = s.m_Length ∧
    (s.WriteData mem (some src) len).2.2.GetSize = s.GetSize := by
  rw [WriteData_of_le mem s src len h0 hle, counter_add_lt s len hwf hle]
  refine ⟨rfl, ?_, ?_, rfl, rfl, ?_, rfl⟩
  · intro i hi
    simp [memcpy, hi]
  · intro a ha
    simp only [memcpy]
    rw [if_neg ha]
  · show s.m_Length - len + len = s.m_Length
    omega

/-- Witness of C5: three bytes written into a fresh cursor of capacity 5. -/
theorem WriteData_effect_witness :
    (OutputByteStream.WriteData sampleMemory (OutputByteStream.construct 10 5)
      (some (arrayPtr [7, 8, 9])) 3).2.2.m_Counter = 0 + 3 :=
  (WriteData_effect sampleMemory (OutputByteStream.construct 10 5) (arrayPtr [7, 8, 9]) 3
    (by decide) (by decide) (by decide)).2.2.2.2.1

/-- C6: a write of more bytes than the remaining capacity throws
`std::length_error` and leaves the cursor and every byte of memory as they
were; so do the fixed-width writes when fewer than 1, 2, 4 or 8 bytes of
capacity remain. -/
theorem Write_overflow_atomic (mem : Memory) (s : OutputByteStream) :
    (∀ (src : Nat → Byte) (len : Nat), len > s.m_Length →
      s.WriteData mem (some src) len = (.error outputOutOfBounds, mem, s)) ∧
    (∀ b : Byte, s.m_Length < 1 → s.WriteUInt8 mem b = (.error outputOutOfBounds, mem, s)) ∧
    (∀ v : Nat, s.m_Length < 2 → s.WriteUInt16 mem v = (.error outputOutOfBounds, mem, s)) ∧
    (∀ v : Nat, s.m_Length < 4 → s.WriteUInt32 mem v = (.error outputOutOfBounds, mem, s)) ∧
    (∀ v : Nat, s.m_Length < 8 → s.WriteUInt64 mem v = (.error outputOutOfBounds, mem, s)) := by
  refine ⟨?_, ?_, ?_, ?_, ?_⟩
  · intro src len h
    exact WriteData_of_gt mem s src len h
  · intro b h
    exact WriteData_of_gt mem s _ 1 h
  · intro v h
    exact WriteData_of_gt mem s _ 2 h
  · intro v h
    exact WriteData_of_gt mem s _ 4 h
  · intro v h
    exact WriteData_of_gt mem s _ 8 h

/-- Witness of C6: a 4-byte write and a 32-bit write into 3 bytes of capacity. -/
theorem Write_overflow_atomic_witness :
    OutputByteStream.WriteData sampleMemory ⟨10, 3, 2, 5⟩ (some (arrayPtr [1, 2, 3, 4])) 4 =
      (.error outputOutOfBounds, sampleMemory, ⟨10, 3, 2, 5⟩) ∧
    OutputByteStream.WriteUInt32 sampleMemory ⟨10, 3, 2, 5⟩ 77 =
      (.error outputOutOfBounds, sampleMemory, ⟨10, 3, 2, 5⟩) :=
  ⟨(Write_overflow_atomic sampleMemory ⟨10, 3, 2, 5⟩).1 (arrayPtr [1, 2, 3, 4]) 4 (by decide),
   (Write_overflow_atomic sampleMemory ⟨10, 3, 2, 5⟩).2.2.2.1 77 (by decide)⟩

/-- C7: `WriteData(nullptr, len)` with `len > 0` throws `std::runtime_error`,
which is not the out-of-bounds `std::length_error`, whether or not `len`
exceeds the remaining capacity, and leaves the cursor and the memory as they
were. -/
theorem WriteData_null_source (mem : Memory) (s : OutputByteStream) (len : Nat) (h : len > 0) :
    s.WriteData mem none len = (.error nullSource, mem, s) ∧
    nullSource ≠ outputOutOfBounds := by
  constructor
  · exact WriteData_of_null mem s len h
  · simp [nullSource, outputOutOfBounds]

/-- Witness of C7: a null source with a length beyond the capacity. -/
theorem WriteData_null_source_witness :
    OutputByteStream.WriteData sampleMemory ⟨10, 3, 2, 5⟩ none 4 =
      (.error nullSource, sampleMemory, ⟨10, 3, 2, 5⟩) ∧
    nullSource ≠ outputOutOfBounds :=
  WriteData_null_source sampleMemory ⟨10, 3, 2, 5⟩ 4 (by decide)

/-- C8: `WriteData(source, 0)` returns normally for every cursor (also one
with no capacity left) and every source, null or not, and leaves the cursor
(produced count, remaining capacity, position) and the memory as they were. -/
theorem WriteData_zero_length (mem : Memory) (s : OutputByteStream)
    (data : Option (Nat → Byte)) :
    (s.WriteData mem data 0).1 = .ok () ∧
    (s.WriteData mem data 0).2.1 = mem ∧
    (s.WriteData mem data 0).2.2 = s := by
  rw [WriteData_of_zero]
  exact ⟨rfl, rfl, rfl⟩

/-! ## Output cursor: the invariant -/

theorem construct_wellFormed (data len : Nat) (h : len < SIZE_MOD) :
    (OutputByteStream.construct data len).wellFormed := by
  simp [OutputByteStream.construct, OutputByteStream.wellFormed, h]

theorem ProduceData_preserves (s : OutputByteStream) (amount : Nat) (hwf : s.wellFormed) :
    (s.ProduceData amount).2.wellFormed ∧ (s.ProduceData amount).2.m_Size = s.m_Size := by
  by_cases h : amount > s.m_Length
  · rw [ProduceData_of_gt s amount h]
    exact ⟨hwf, rfl⟩
  · have hle : amount ≤ s.m_Length := by omega
    rw [ProduceData_of_le s amount hle, counter_add_lt s amount hwf hle]
    obtain ⟨h1, h2⟩ := hwf
    refine ⟨⟨?_, h2⟩, rfl⟩
    show s.m_Counter + amount + (s.m_Length - amount) = s.m_Size
    omega

theorem WriteData_preserves (mem : Memory) (s : OutputByteStream) (data : Option (Nat → Byte))
    (len : Nat) (hwf : s.wellFormed) :
    (s.WriteData mem data len).2.2.wellFormed ∧
    (s.WriteData mem data len).2.2.m_Size = s.m_Size := by
  by_cases h0 : len = 0
  · subst h0
    rw [WriteData_of_zero]
    exact ⟨hwf, rfl⟩
  · cases data with
    | none =>
      rw [WriteData_of_null mem s len (by omega)]
      exact ⟨hwf, rfl⟩
    | some src =>
      by_cases h : len > s.m_Length
      · rw [WriteData_of_gt mem s src len h]
        exact ⟨hwf, rfl⟩
      · have hle : len ≤ s.m_Length := by omega
        have hp := ProduceData_preserves s len hwf
        rw [ProduceData_of_le s len hle] at hp
        rw [WriteData_of_le mem s src len (by omega) hle]
        exact hp

theorem OutputCall_run_preserves (c : OutputCall) (mem : Memory) (s : OutputByteStream)
    (hwf : s.wellFormed) :
    (c.run mem s).2.2.wellFormed ∧ (c.run mem s).2.2.m_Size = s.m_Size := by
  cases c with
  | ProduceData amount => exact ProduceData_preserves s amount hwf
  | WriteData data len => exact WriteData_preserves mem s data len hwf
  | WriteUInt8 data => exact WriteData_preserves mem s _ 1 hwf
  | WriteUInt16 data => exact WriteData_preserves mem s _ 2 hwf
  | WriteUInt32 data => exact WriteData_preserves mem s _ 4 hwf
  | WriteUInt64 data => exact WriteData_preserves mem s _ 8 hwf

theorem runCalls_preserves (calls : List OutputCall) (st : Memory × OutputByteStream)
    (hwf : st.2.wellFormed) :
    (runCalls calls st).2.wellFormed ∧ (runCalls calls st).2.m_Size = st.2.m_Size := by
  induction calls generalizing st with
  | nil => exact ⟨hwf, rfl⟩
  | cons c cs ih =>
    have hc := OutputCall_run_preserves c st.1 st.2 hwf
    have hcs := ih (c.run st.1 st.2).2 hc.1
    simp only [runCalls]
    exact ⟨hcs.1, hcs.2.trans hc.2⟩

/-- C9: for a cursor constructed with a length `L` (a `std::size_t`) and any
sequence of `ProduceData`, `WriteData` and `WriteUInt8/16/32/64` calls,
whether they return or throw, after each call (after the first `n` calls,
for every `n`) the produced count plus the remaining capacity equals the
total capacity, and `GetSize()` is still `L`. -/
theorem output_invariant (mem : Memory) (data L : Nat) (calls : List OutputCall) (n : Nat)
    (hL : L < SIZE_MOD) :
    (runCalls (calls.take n) (mem, OutputByteStream.construct data L)).2.m_Counter +
      (runCalls (calls.take n) (mem, OutputByteStream.construct data L)).2.m_Length =
      (runCalls (calls.take n) (mem, OutputByteStream.construct data L)).2.GetSize ∧
    (runCalls (calls.take n) (mem, OutputByteStream.construct data L)).2.GetSize = L := by
  have h := runCalls_preserves (calls.take n) (mem, OutputByteStream.construct data L)
    (construct_wellFormed data L hL)
  exact ⟨h.1.1, h.2⟩

/-- Witness of C9: a cursor of capacity 5 after a write, an overflowing
write, a null write and a produce. -/
theorem output_invariant_witness :
    (runCalls (List.take 4 [.WriteUInt16 513, .WriteUInt32 7, .WriteData none 2, .ProduceData 1])
      (sampleMemory, OutputByteStream.construct 10 5)).2.GetSize = 5 :=
  (output_invariant sampleMemory 10 5
    [.WriteUInt16 513, .WriteUInt32 7, .WriteData none 2, .ProduceData 1] 4 (by decide)).2

/-- C10: for a cursor in a well-formed state, `ProduceData(amount)` throws
`std::length_error` exactly when `amount` exceeds the remaining capacity, and
then leaves the cursor as it was; otherwise it returns normally, moves the
position forward by `amount`, takes `amount` off the remaining capacity, adds
`amount` to the produced count and leaves the total capacity alone. -/
theorem ProduceData_spec (s : OutputByteStream) (amount : Nat) (hwf : s.wellFormed) :
    ((∃ e, (s.ProduceData amount).1 = .error e) ↔ amount > s.m_Length) ∧
    (amount > s.m_Length → s.ProduceData amount = (.error outputOutOfBounds, s)) ∧
    (¬ amount > s.m_Length →
      (s.ProduceData amount).1 = .ok () ∧
      (s.ProduceData amount).2.GetPosition = s.GetPosition + amount ∧
      (s.ProduceData amount).2.m_Length + amount = s.m_Length ∧
      (s.ProduceData amount).2.m_Counter = s.m_Counter + amount ∧
      (s.ProduceData amount).2.GetSize = s.GetSize) := by
  by_cases h : amount > s.m_Length
  · simp [ProduceData_of_gt s amount h, h]
  · have hle : amount ≤ s.m_Length := by omega
    rw [ProduceData_of_le s amount hle, counter_add_lt s amount hwf hle]
    refine ⟨by simp [h], fun h' => absurd h' h, fun _ => ⟨rfl, rfl, ?_, rfl, rfl⟩⟩
    show s.m_Length - amount + amount = s.m_Length
    omega

/-- Witness of C10: producing 2 of 3 remaining bytes. -/
theorem ProduceData_spec_witness :
    (OutputByteStream.ProduceData ⟨10, 3, 2, 5⟩ 2).2.m_Counter = 2 + 2 :=
  ((ProduceData_spec ⟨10, 3, 2, 5⟩ 2 (by decide)).2.2 (by decide)).2.2.2.1

/-! ## Round trip -/

theorem foldl_be (bytes : List Byte) (acc : Nat) :
    bytes.foldl (fun acc b => acc * 256 + b.val) acc =
      acc * 256 ^ bytes.length + beDecode bytes := by
  induction bytes generalizing acc with
  | nil => simp [beDecode]
  | cons b bs ih =>
    simp only [beDecode, List.foldl_cons, List.length_cons]
    rw [ih (acc * 256 + b.val), ih (0 * 256 + b.val)]
    simp only [beDecode]
    ring

theorem beDecode_cons (b : Byte) (bytes : List Byte) :
    beDecode (b :: bytes) = b.val * 256 ^ bytes.length + beDecode bytes := by
  have h := foldl_be bytes (0 * 256 + b.val)
  simp only [beDecode, List.foldl_cons] at h ⊢
  rw [h]
  ring

theorem beEncode_length (n v : Nat) : (beEncode n v).length = n := by
  induction n with
  | zero => rfl
  | succ n ih => simp [beEncode, ih]

theorem beDecode_beEncode (n v : Nat) : beDecode (beEncode n v) = v % 256 ^ n := by
  induction n with
  | zero => simp [beEncode, beDecode, Nat.mod_one]
  | succ n ih =>
    rw [beEncode, beDecode_cons, ih, beEncode_length, Nat.mod_pow_succ]
    simp [Fin.ofNat]
    ring

theorem map_memcpy_arrayPtr (mem : Memory) (p : Nat) (buf : List Byte) :
    (List.range buf.length).map (fun i => memcpy mem p (arrayPtr buf) buf.length (p + i)) =
      buf := by
  apply List.ext_getElem
  · simp
  · intro i h1 h2
    simp only [List.length_map, List.length_range] at h1
    simp [memcpy, arrayPtr, h1]

theorem bufbe_memcpy (mem : Memory) (p n v : Nat) :
    beDecode ((List.range n).map (fun i => memcpy mem p (arrayPtr (beEncode n v)) n (p + i))) =
      v % 256 ^ n := by
  have h := map_memcpy_arrayPtr mem p (beEncode n v)
  rw [beEncode_length] at h
  rw [h, beDecode_beEncode]

/-- C1: round trip.  For each width of 8, 16, 32 and 64 bits, every value `v`
of that width and every output cursor constructed over a buffer at `data` of
length at least the width in bytes: the write returns normally, and the read
of the same width on an input cursor constructed over the same buffer (at
`data`, where `GetData()` of the written cursor still points) returns `v`. -/
theorem write_read_roundtrip (mem : Memory) (data len : Nat) :
    (∀ b : Byte, 1 ≤ len →
      ((OutputByteStream.construct data len).WriteUInt8 mem b).1 = .ok () ∧
      ((OutputByteStream.construct data len).WriteUInt8 mem b).2.2.GetData = data ∧
      ((InputByteStream.construct data len).ReadUInt8
        ((OutputByteStream.construct data len).WriteUInt8 mem b).2.1).1 = .ok b) ∧
    (∀ v : Nat, v < 2 ^ 16 → 2 ≤ len →
      ((OutputByteStream.construct data len).WriteUInt16 mem v).1 = .ok () ∧
      ((OutputByteStream.construct data len).WriteUInt16 mem v).2.2.GetData = data ∧
      ((InputByteStream.construct data len).ReadUInt16
        ((OutputByteStream.construct data len).WriteUInt16 mem v).2.1).1 = .ok v) ∧
    (∀ v : Nat, v < 2 ^ 32 → 4 ≤ len →
      ((OutputByteStream.construct data len).WriteUInt32 mem v).1 = .ok () ∧
      ((OutputByteStream.construct data len).WriteUInt32 mem v).2.2.GetData = data ∧
      ((InputByteStream.construct data len).ReadUInt32
        ((OutputByteStream.construct data len).WriteUInt32 mem v).2.1).1 = .ok v) ∧
    (∀ v : Nat, v < 2 ^ 64 → 8 ≤ len →
      ((OutputByteStream.construct data len).WriteUInt64 mem v).1 = .ok () ∧
      ((OutputByteStream.construct data len).WriteUInt64 mem v).2.2.GetData = data ∧
      ((InputByteStream.construct data len).ReadUInt64
        ((OutputByteStream.construct data len).WriteUInt64 mem v).2.1).1 = .ok v) := by
  refine ⟨?_, ?_, ?_, ?_⟩
  · intro b hlen
    have hw := WriteData_of_le mem (OutputByteStream.construct data len) (arrayPtr [b]) 1
      (by decide) hlen
    have hr := ReadBytes_of_le (InputByteStream.construct data len) 1 hlen
    rw [OutputByteStream.WriteUInt8, InputByteStream.ReadUInt8, hw, hr]
    refine ⟨rfl, ?_, ?_⟩
    · simp [OutputByteStream.GetData, OutputByteStream.construct, SIZE_MOD]
    · simp [memcpy, arrayPtr, OutputByteStream.construct, InputByteStream.construct]
  · intro v hv hlen
    have hw := WriteData_of_le mem (OutputByteStream.construct data len)
      (arrayPtr (htobe16buf v)) 2 (by decide) hlen
    have hr := ReadBytes_of_le (InputByteStream.construct data len) 2 hlen
    rw [OutputByteStream.WriteUInt16, InputByteStream.ReadUInt16, hw, hr]
    refine ⟨rfl, ?_, ?_⟩
    · simp [OutputByteStream.GetData, OutputByteStream.construct, SIZE_MOD]
    · have h := bufbe_memcpy mem data 2 v
      rw [Nat.mod_eq_of_lt (by norm_num; exact hv)] at h
      simp only [bufbe16toh, htobe16buf, OutputByteStream.construct,
        InputByteStream.construct, h]
  · intro v hv hlen
    have hw := WriteData_of_le mem (OutputByteStream.construct data len)
      (arrayPtr (htobe32buf v)) 4 (by decide) hlen
    have hr := ReadBytes_of_le (InputByteStream.construct data len) 4 hlen
    rw [OutputByteStream.WriteUInt32, InputByteStream.ReadUInt32, hw, hr]
    refine ⟨rfl, ?_, ?_⟩
    · simp [OutputByteStream.GetData, OutputByteStream.construct, SIZE_MOD]
    · have h := bufbe_memcpy mem data 4 v
      rw [Nat.mod_eq_of_lt (by norm_num; exact hv)] at h
      simp only [bufbe32toh, htobe32buf, OutputByteStream.construct,
        InputByteStream.construct, h]
  · intro v hv hlen
    have hw := WriteData_of_le mem (OutputByteStream.construct data len)
      (arrayPtr (htobe64buf v)) 8 (by decide) hlen
    have hr := ReadBytes_of_le (InputByteStream.construct data len) 8 hlen
    rw [OutputByteStream.WriteUInt64, InputByteStream.ReadUInt64, hw, hr]
    refine ⟨rfl, ?_, ?_⟩
    · simp [OutputByteStream.GetData, OutputByteStream.construct, SIZE_MOD]
    · have h := bufbe_memcpy mem data 8 v
      rw [Nat.mod_eq_of_lt (by norm_num; exact hv)] at h
      simp only [bufbe64toh, htobe64buf, OutputByteStream.construct,
        InputByteStream.construct, h]

/-- Witness of C1: 0xBEEF written into a 4-byte buffer at address 10 and read
back. -/
theorem write_read_roundtrip_witness :
    (InputByteStream.ReadUInt16
      ((OutputByteStream.construct 10 4).WriteUInt16 sampleMemory 0xBEEF).2.1
      (InputByteStream.construct 10 4)).1 = .ok 0xBEEF :=
  ((write_read_roundtrip sampleMemory 10 4).2.1 0xBEEF (by decide) (by decide)).2.2

/-! ## Big-endian layout of writes -/

theorem beEncode_getD (n v i : Nat) (h : i < n) :
    (beEncode n v).getD i 0 = Fin.ofNat (v / 256 ^ (n - 1 - i)) := by
  induction n generalizing i with
  | zero => omega
  | succ n ih =>
    cases i with
    | zero => simp [beEncode]
    | succ j =>
      have hj : j < n := by omega
      have he : n + 1 - 1 - (j + 1) = n - 1 - j := by omega
      simp only [beEncode, List.getD_cons_succ, he]
      exact ih j hj

theorem memcpy_arrayPtr_at (mem : Memory) (p : Nat) (buf : List Byte) (n i : Nat) (h : i < n) :
    memcpy mem p (arrayPtr buf) n (p + i) = buf.getD i 0 := by
  simp [memcpy, arrayPtr, h]

/-- C11: for each width of 1, 2, 4 and 8 bytes, every value `v` of that width
and every output cursor with at least that much capacity left: the write
returns normally, afterwards the byte at the old position plus `i` is
`(v / 256 ^ (N - 1 - i)) mod 256` for every `i < N`, most significant byte
first, and the cursor has moved forward by exactly `N`. -/
theorem WriteUInt_layout (mem : Memory) (s : OutputByteStream) :
    (∀ b : Byte, 1 ≤ s.m_Length →
      (s.WriteUInt8 mem b).1 = .ok () ∧
      (∀ i, i < 1 →
        ((s.WriteUInt8 mem b).2.1 (s.m_Data + i)).val = b.val / 256 ^ (1 - 1 - i) % 256) ∧
      (s.WriteUInt8 mem b).2.2.GetPosition = s.GetPosition + 1 ∧
      (s.WriteUInt8 mem b).2.2.m_Length + 1 = s.m_Length) ∧
    (∀ v : Nat, v < 2 ^ 16 → 2 ≤ s.m_Length →
      (s.WriteUInt16 mem v).1 = .ok () ∧
      (∀ i, i < 2 →
        ((s.WriteUInt16 mem v).2.1 (s.m_Data + i)).val = v / 256 ^ (2 - 1 - i) % 256) ∧
      (s.WriteUInt16 mem v).2.2.GetPosition = s.GetPosition + 2 ∧
      (s.WriteUInt16 mem v).2.2.m_Length + 2 = s.m_Length) ∧
    (∀ v : Nat, v < 2 ^ 32 → 4 ≤ s.m_Length →
      (s.WriteUInt32 mem v).1 = .ok () ∧
      (∀ i, i < 4 →
        ((s.WriteUInt32 mem v).2.1 (s.m_Data + i)).val = v / 256 ^ (4 - 1 - i) % 256) ∧
      (s.WriteUInt32 mem v).2.2.GetPosition = s.GetPosition + 4 ∧
      (s.WriteUInt32 mem v).2.2.m_Length + 4 = s.m_Length) ∧
    (∀ v : Nat, v < 2 ^ 64 → 8 ≤ s.m_Length →
      (s.WriteUInt64 mem v).1 = .ok () ∧
      (∀ i, i < 8 →
        ((s.WriteUInt64 mem v).2.1 (s.m_Data + i)).val = v / 256 ^ (8 - 1 - i) % 256) ∧
      (s.WriteUInt64 mem v).2.2.GetPosition = s.GetPosition + 8 ∧
      (s.WriteUInt64 mem v).2.2.m_Length + 8 = s.m_Length) := by
  refine ⟨?_, ?_, ?_, ?_⟩
  · intro b hlen
    rw [OutputByteStream.WriteUInt8, WriteData_of_le mem s (arrayPtr [b]) 1 (by decide) hlen]
    refine ⟨rfl, ?_, rfl, ?_⟩
    · intro i hi
      have hi0 : i = 0 := by omega
      subst hi0
      have hb : b.val < 256 := b.isLt
      simp [memcpy, arrayPtr, Nat.mod_eq_of_lt hb]
    · show s.m_Length - 1 + 1 = s.m_Length
      omega
  · intro v _ hlen
    rw [OutputByteStream.WriteUInt16,
      WriteData_of_le mem s (arrayPtr (htobe16buf v)) 2 (by decide) hlen]
    refine ⟨rfl, ?_, rfl, ?_⟩
    · intro i hi
      show (memcpy mem s.m_Data (arrayPtr (htobe16buf v)) 2 (s.m_Data + i)).val = _
      rw [memcpy_arrayPtr_at mem s.m_Data _ 2 i hi, htobe16buf, beEncode_getD 2 v i hi]
      rfl
    · show s.m_Length - 2 + 2 = s.m_Length
      omega
  · intro v _ hlen
    rw [OutputByteStream.WriteUInt32,
      WriteData_of_le mem s (arrayPtr (htobe32buf v)) 4 (by decide) hlen]
    refine ⟨rfl, ?_, rfl, ?_⟩
    · intro i hi
      show (memcpy mem s.m_Data (arrayPtr (htobe32buf v)) 4 (s.m_Data + i)).val = _
      rw [memcpy_arrayPtr_at mem s.m_Data _ 4 i hi, htobe32buf, beEncode_getD 4 v i hi]
      rfl
    · show s.m_Length - 4 + 4 = s.m_Length
      omega
  · intro v _ hlen
    rw [OutputByteStream.WriteUInt64,
      WriteData_of_le mem s (arrayPtr (htobe64buf v)) 8 (by decide) hlen]
    refine ⟨rfl, ?_, rfl, ?_⟩
    · intro i hi
      show (memcpy mem s.m_Data (arrayPtr (htobe64buf v)) 8 (s.m_Data + i)).val = _
      rw [memcpy_arrayPtr_at mem s.m_Data _ 8 i hi, htobe64buf, beEncode_getD 8 v i hi]
      rfl
    · show s.m_Length - 8 + 8 = s.m_Length
      omega

/-- Witness of C11: the second byte of 0x01020304 written as 32 bits. -/
theorem WriteUInt_layout_witness :
    ((OutputByteStream.WriteUInt32 sampleMemory ⟨10, 5, 0, 5⟩ 0x01020304).2.1 (10 + 1)).val =
      0x01020304 / 256 ^ (4 - 1 - 1) % 256 :=
  ((WriteUInt_layout sampleMemory ⟨10, 5, 0, 5⟩).2.2.1 0x01020304 (by decide) (by decide)).2.1
    1 (by decide)

/-! ## Input cursor: views -/

/-- C12: for `amount` up to the remaining length, `ReadBytes(amount)` returns
the position the cursor held before the call and leaves the cursor in the
state `ConsumeData(amount)` leaves it in; for a larger `amount` it throws
what `ConsumeData` throws and the cursor is as it was. -/
theorem ReadBytes_spec (s : InputByteStream) (amount : Nat) :
    (amount ≤ s.m_Length →
      (s.ReadBytes amount).1 = .ok s.m_Data ∧
      (s.ConsumeData amount).1 = .ok () ∧
      (s.ReadBytes amount).2 = (s.ConsumeData amount).2 ∧
      (s.ReadBytes amount).2 =
        { m_Data := s.m_Data + amount, m_Length := s.m_Length - amount }) ∧
    (amount > s.m_Length →
      (s.ReadBytes amount).1 = .error inputOutOfBounds ∧
      (s.ConsumeData amount).1 = .error inputOutOfBounds ∧
      (s.ReadBytes amount).2 = s) := by
  constructor
  · intro h
    rw [ReadBytes_of_le s amount h, ConsumeData_of_le s amount h]
    exact ⟨rfl, rfl, rfl, rfl⟩
  · intro h
    rw [ReadBytes_of_gt s amount h, ConsumeData_of_gt s amount h]
    exact ⟨rfl, rfl, rfl⟩

/-- Witness of C12: a view of 3 of the 5 remaining bytes, and one of 6. -/
theorem ReadBytes_spec_witness :
    (InputByteStream.ReadBytes ⟨7, 5⟩ 3).1 = .ok 7 ∧
    (InputByteStream.ReadBytes ⟨7, 5⟩ 6).2 = ⟨7, 5⟩ :=
  ⟨((ReadBytes_spec ⟨7, 5⟩ 3).1 (by decide)).1, ((ReadBytes_spec ⟨7, 5⟩ 6).2 (by decide)).2.2⟩

/-! ## Input cursor: the invariant -/

theorem ConsumeData_state (s : InputByteStream) (amount : Nat) :
    (s.ConsumeData amount).2 = s ∨
    ∃ k, k ≤ s.m_Length ∧
      (s.ConsumeData amount).2 = { m_Data := s.m_Data + k, m_Length := s.m_Length - k } := by
  by_cases h : amount > s.m_Length
  · left
    rw [ConsumeData_of_gt s amount h]
  · right
    have hle : amount ≤ s.m_Length := by omega
    exact ⟨amount, hle, by rw [ConsumeData_of_le s amount hle]⟩

theorem ReadBytes_state (s : InputByteStream) (amount : Nat) :
    (s.ReadBytes amount).2 = (s.ConsumeData amount).2 := by
  by_cases h : amount > s.m_Length
  · rw [ReadBytes_of_gt s amount h, ConsumeData_of_gt s amount h]
  · have hle : amount ≤ s.m_Length := by omega
    rw [ReadBytes_of_le s amount hle, ConsumeData_of_le s amount hle]

theorem InputCall_run_eq (c : InputCall) (mem : Memory) (s : InputByteStream) :
    ∃ amount, c.run mem s = (s.ConsumeData amount).2 := by
  cases c with
  | ConsumeData amount => exact ⟨amount, rfl⟩
  | ReadBytes amount => exact ⟨amount, ReadBytes_state s amount⟩
  | ReadUInt8 =>
    refine ⟨1, ?_⟩
    rw [← ReadBytes_state]
    by_cases h : 1 > s.m_Length
    · simp [InputCall.run, InputByteStream.ReadUInt8, ReadBytes_of_gt s 1 h]
    · simp [InputCall.run, InputByteStream.ReadUInt8, ReadBytes_of_le s 1 (by omega)]
  | ReadUInt16 =>
    refine ⟨2, ?_⟩
    rw [← ReadBytes_state]
    by_cases h : 2 > s.m_Length
    · simp [InputCall.run, InputByteStream.ReadUInt16, ReadBytes_of_gt s 2 h]
    · simp [InputCall.run, InputByteStream.ReadUInt16, ReadBytes_of_le s 2 (by omega)]
  | ReadUInt32 =>
    refine ⟨4, ?_⟩
    rw [← ReadBytes_state]
    by_cases h : 4 > s.m_Length
    · simp [InputCall.run, InputByteStream.ReadUInt32, ReadBytes_of_gt s 4 h]
    · simp [InputCall.run, InputByteStream.ReadUInt32, ReadBytes_of_le s 4 (by omega)]
  | ReadUInt64 =>
    refine ⟨8, ?_⟩
    rw [← ReadBytes_state]
    by_cases h : 8 > s.m_Length
    · simp [InputCall.run, InputByteStream.ReadUInt64, ReadBytes_of_gt s 8 h]
    · simp [InputCall.run, InputByteStream.ReadUInt64, ReadBytes_of_le s 8 (by omega)]

theorem InputCall_run_bounds (c : InputCall) (mem : Memory) (s : InputByteStream) :
    (c.run mem s).m_Length ≤ s.m_Length ∧
    (c.run mem s).m_Data + (c.run mem s).m_Length = s.m_Data + s.m_Length := by
  obtain ⟨amount, h⟩ := InputCall_run_eq c mem s
  rw [h]
  rcases ConsumeData_state s amount with h1 | ⟨k, hk, h1⟩
  · rw [h1]
    exact ⟨Nat.le_refl _, rfl⟩
  · rw [h1]
    constructor
    · show s.m_Length - k ≤ s.m_Length
      omega
    · show s.m_Data + k + (s.m_Length - k) = s.m_Data + s.m_Length
      omega

theorem runInputCalls_bounds (mem : Memory) (calls : List InputCall) (s : InputByteStream) :
    (runInputCalls mem calls s).m_Length ≤ s.m_Length ∧
    (runInputCalls mem calls s).m_Data + (runInputCalls mem calls s).m_Length =
      s.m_Data + s.m_Length := by
  induction calls generalizing s with
  | nil => exact ⟨Nat.le_refl _, rfl⟩
  | cons c cs ih =>
    have hc := InputCall_run_bounds c mem s
    have hcs := ih (c.run mem s)
    simp only [runInputCalls]
    exact ⟨Nat.le_trans hcs.1 hc.1, hcs.2.trans hc.2⟩

theorem runInputCalls_append (mem : Memory) (xs ys : List InputCall) (s : InputByteStream) :
    runInputCalls mem (xs ++ ys) s = runInputCalls mem ys (runInputCalls mem xs s) := by
  induction xs generalizing s with
  | nil => rfl
  | cons c cs ih => exact ih (c.run mem s)

/-- C13: for an input cursor constructed at `data` with length `len` and any
sequence of `ConsumeData`, `ReadBytes` and `ReadUInt8/16/32/64` calls,
whether they return or throw: the remaining length after the first `m` calls
is at most what it was after the first `n` calls, for every `n <= m`; and
after every number of calls the position has not moved back and its offset
from `data` plus the remaining length is `len`, so that the remaining length
never reaches past the end of the original buffer. -/
theorem input_invariant (mem : Memory) (data len : Nat) (calls : List InputCall) (n m : Nat)
    (hnm : n ≤ m) :
    (runInputCalls mem (calls.take m) (InputByteStream.construct data len)).m_Length ≤
      (runInputCalls mem (calls.take n) (InputByteStream.construct data len)).m_Length ∧
    data ≤ (runInputCalls mem (calls.take n) (InputByteStream.construct data len)).m_Data ∧
    ((runInputCalls mem (calls.take n) (InputByteStream.construct data len)).m_Data - data) +
      (runInputCalls mem (calls.take n) (InputByteStream.construct data len)).m_Length = len := by
  have hsplit : calls.take m = calls.take n ++ (calls.take m).drop n := by
    have h1 : (calls.take m).take n = calls.take n := by
      rw [List.take_take, Nat.min_eq_left hnm]
    rw [← h1, List.take_append_drop]
  have h1 := runInputCalls_bounds mem (calls.take n) (InputByteStream.construct data len)
  have h2 := runInputCalls_bounds mem ((calls.take m).drop n)
    (runInputCalls mem (calls.take n) (InputByteStream.construct data len))
  rw [hsplit, runInputCalls_append]
  refine ⟨h2.1, ?_, ?_⟩
  · have := h1.1
    have := h1.2
    simp only [InputByteStream.construct] at *
    omega
  · have := h1.1
    have := h1.2
    simp only [InputByteStream.construct] at *
    omega

/-- Witness of C13: a cursor over 5 bytes at address 7 after one call and
after four, among them a read that throws. -/
theorem input_invariant_witness :
    (runInputCalls sampleMemory
        (List.take 4 [.ReadUInt16, .ReadUInt32, .ReadBytes 1, .ConsumeData 2])
        (InputByteStream.construct 7 5)).m_Length ≤
      (runInputCalls sampleMemory
        (List.take 1 [.ReadUInt16, .ReadUInt32, .ReadBytes 1, .ConsumeData 2])
        (InputByteStream.construct 7 5)).m_Length :=
  (input_invariant sampleMemory 7 5 [.ReadUInt16, .ReadUInt32, .ReadBytes 1, .ConsumeData 2]
    1 4 (by decide)).1

/-! ## Output cursor: start of the buffer -/

theorem OutputCall_run_state (c : OutputCall) (mem : Memory) (s : OutputByteStream) :
    (c.run mem s).2.2 = s ∨
    ∃ k, k ≤ s.m_Length ∧
      (c.run mem s).2.2 =
        { m_Data := s.m_Data + k, m_Length := s.m_Length - k,
          m_Counter := (s.m_Counter + k) % SIZE_MOD, m_Size := s.m_Size } := by
  have hW : ∀ (data : Option (Nat → Byte)) (len : Nat),
      (s.WriteData mem data len).2.2 = s ∨
      ∃ k, k ≤ s.m_Length ∧
        (s.WriteData mem data len).2.2 =
          { m_Data := s.m_Data + k, m_Length := s.m_Length - k,
            m_Counter := (s.m_Counter + k) % SIZE_MOD, m_Size := s.m_Size } := by
    intro data len
    by_cases h0 : len = 0
    · subst h0
      left
      rw [WriteData_of_zero]
    · cases data with
      | none =>
        left
        rw [WriteData_of_null mem s len (by omega)]
      | some src =>
        by_cases h : len > s.m_Length
        · left
          rw [WriteData_of_gt mem s src len h]
        · right
          have hle : len ≤ s.m_Length := by omega
          exact ⟨len, hle, by rw [WriteData_of_le mem s src len (by omega) hle]⟩
  cases c with
  | ProduceData amount =>
    by_cases h : amount > s.m_Length
    · left
      simp only [OutputCall.run]
      rw [ProduceData_of_gt s amount h]
    · right
      have hle : amount ≤ s.m_Length := by omega
      refine ⟨amount, hle, ?_⟩
      simp only [OutputCall.run]
      rw [ProduceData_of_le s amount hle]
  | WriteData data len => exact hW data len
  | WriteUInt8 data => exact hW _ 1
  | WriteUInt16 data => exact hW _ 2
  | WriteUInt32 data => exact hW _ 4
  | WriteUInt64 data => exact hW _ 8

theorem runCalls_position (calls : List OutputCall) (st : Memory × OutputByteStream) (p : Nat)
    (hwf : st.2.wellFormed) (hp : st.2.m_Data = p + st.2.m_Counter) :
    (runCalls calls st).2.m_Data = p + (runCalls calls st).2.m_Counter := by
  induction calls generalizing st with
  | nil => exact hp
  | cons c cs ih =>
    simp only [runCalls]
    apply ih
    · exact (OutputCall_run_preserves c st.1 st.2 hwf).1
    · rcases OutputCall_run_state c st.1 st.2 with h | ⟨k, hk, h⟩
      · rw [h]
        exact hp
      · rw [h, counter_add_lt st.2 k hwf hk]
        show st.2.m_Data + k = p + (st.2.m_Counter + k)
        omega

/-- C14: for an output cursor constructed at position `p` (with a length that
is a `std::size_t`) and any sequence of `ProduceData`, `WriteData` and
`WriteUInt8/16/32/64` calls, whether they return or throw, after each call
`GetData()` returns `p` and `GetPosition()` returns `p` plus the produced
count. -/
theorem GetData_is_start (mem : Memory) (p L : Nat) (calls : List OutputCall) (n : Nat)
    (hL : L < SIZE_MOD) :
    (runCalls (calls.take n) (mem, OutputByteStream.construct p L)).2.GetData = p ∧
    (runCalls (calls.take n) (mem, OutputByteStream.construct p L)).2.GetPosition =
      p + (runCalls (calls.take n) (mem, OutputByteStream.construct p L)).2.m_Counter := by
  have h := runCalls_position (calls.take n) (mem, OutputByteStream.construct p L) p
    (construct_wellFormed p L hL) rfl
  refine ⟨?_, h⟩
  rw [OutputByteStream.GetData, h]
  omega

/-- Witness of C14: a cursor at address 10 after a write, an overflowing
write and a produce. -/
theorem GetData_is_start_witness :
    (runCalls (List.take 3 [.WriteUInt16 513, .WriteUInt64 7, .ProduceData 1])
      (sampleMemory, OutputByteStream.construct 10 5)).2.GetData = 10 :=
  (GetData_is_start sampleMemory 10 5 [.WriteUInt16 513, .WriteUInt64 7, .ProduceData 1] 3
    (by decide)).1

/-! ## Reads compose -/

theorem ReadUInt8_of_le (mem : Memory) (s : InputByteStream) (h : 1 ≤ s.m_Length) :
    s.ReadUInt8 mem = (.ok (mem s.m_Data), { m_Data := s.m_Data + 1, m_Length := s.m_Length - 1 }) := by
  simp [InputByteStream.ReadUInt8, ReadBytes_of_le s 1 h]

theorem ReadUInt16_of_le (mem : Memory) (s : InputByteStream) (h : 2 ≤ s.m_Length) :
    s.ReadUInt16 mem =
      (.ok (bufbe16toh mem s.m_Data), { m_Data := s.m_Data + 2, m_Length := s.m_Length - 2 }) := by
  simp [InputByteStream.ReadUInt16, ReadBytes_of_le s 2 h]

theorem ReadUInt32_of_le (mem : Memory) (s : InputByteStream) (h : 4 ≤ s.m_Length) :
    s.ReadUInt32 mem =
      (.ok (bufbe32toh mem s.m_Data), { m_Data := s.m_Data + 4, m_Length := s.m_Length - 4 }) := by
  simp [InputByteStream.ReadUInt32, ReadBytes_of_le s 4 h]

theorem ReadUInt64_of_le (mem : Memory) (s : InputByteStream) (h : 8 ≤ s.m_Length) :
    s.ReadUInt64 mem =
      (.ok (bufbe64toh mem s.m_Data), { m_Data := s.m_Data + 8, m_Length := s.m_Length - 8 }) := by
  simp [InputByteStream.ReadUInt64, ReadBytes_of_le s 8 h]

theorem bufbe16toh_split (mem : Memory) (p : Nat) :
    bufbe16toh mem p = (mem p).val * 2 ^ 8 + (mem (p + 1)).val := by
  simp [bufbe16toh, beDecode, List.range_succ]

theorem bufbe32toh_split (mem : Memory) (p : Nat) :
    bufbe32toh mem p = bufbe16toh mem p * 2 ^ 16 + bufbe16toh mem (p + 2) := by
  simp [bufbe32toh, bufbe16toh, beDecode, List.range_succ]
  ring

theorem bufbe64toh_split (mem : Memory) (p : Nat) :
    bufbe64toh mem p = bufbe32toh mem p * 2 ^ 32 + bufbe32toh mem (p + 4) := by
  simp [bufbe64toh, bufbe32toh, beDecode, List.range_succ]
  ring

/-- C20: with at least 4 bytes remaining, `ReadUInt32` returns
`hi * 2 ^ 16 + lo` for the results `hi`, `lo` of two consecutive `ReadUInt16`
calls from the same state, and both paths end in the same cursor state;
likewise `ReadUInt64` against two `ReadUInt32` and `ReadUInt16` against two
`ReadUInt8`; and for `a + b` up to the remaining length, `ReadBytes(a)` then
`ReadBytes(b)` leaves the cursor as `ReadBytes(a + b)` does, the first view
being the one `ReadBytes(a + b)` returns and the second starting `a` bytes
after it. -/
theorem reads_compose (mem : Memory) (s : InputByteStream) :
    (2 ≤ s.m_Length → ∃ hi lo : Byte,
      (s.ReadUInt8 mem).1 = .ok hi ∧
      ((s.ReadUInt8 mem).2.ReadUInt8 mem).1 = .ok lo ∧
      (s.ReadUInt16 mem).1 = .ok (hi.val * 2 ^ 8 + lo.val) ∧
      (s.ReadUInt16 mem).2 = ((s.ReadUInt8 mem).2.ReadUInt8 mem).2) ∧
    (4 ≤ s.m_Length → ∃ hi lo : Nat,
      (s.ReadUInt16 mem).1 = .ok hi ∧
      ((s.ReadUInt16 mem).2.ReadUInt16 mem).1 = .ok lo ∧
      (s.ReadUInt32 mem).1 = .ok (hi * 2 ^ 16 + lo) ∧
      (s.ReadUInt32 mem).2 = ((s.ReadUInt16 mem).2.ReadUInt16 mem).2) ∧
    (8 ≤ s.m_Length → ∃ hi lo : Nat,
      (s.ReadUInt32 mem).1 = .ok hi ∧
      ((s.ReadUInt32 mem).2.ReadUInt32 mem).1 = .ok lo ∧
      (s.ReadUInt64 mem).1 = .ok (hi * 2 ^ 32 + lo) ∧
      (s.ReadUInt64 mem).2 = ((s.ReadUInt32 mem).2.ReadUInt32 mem).2) ∧
    (∀ a b : Nat, a + b ≤ s.m_Length → ∃ p1 p2 : Nat,
      (s.ReadBytes a).1 = .ok p1 ∧
      ((s.ReadBytes a).2.ReadBytes b).1 = .ok p2 ∧
      (s.ReadBytes (a + b)).1 = .ok p1 ∧
      p2 = p1 + a ∧
      ((s.ReadBytes a).2.ReadBytes b).2 = (s.ReadBytes (a + b)).2) := by
  refine ⟨?_, ?_, ?_, ?_⟩
  · intro h
    have h1 := ReadUInt8_of_le mem s (by omega)
    have h2 := ReadUInt8_of_le mem { m_Data := s.m_Data + 1, m_Length := s.m_Length - 1 }
      (show 1 ≤ s.m_Length - 1 by omega)
    refine ⟨mem s.m_Data, mem (s.m_Data + 1), ?_, ?_, ?_, ?_⟩
    · rw [h1]
    · rw [h1, h2]
    · rw [ReadUInt16_of_le mem s h, bufbe16toh_split]
    · rw [ReadUInt16_of_le mem s h, h1, h2]
      show InputByteStream.mk (s.m_Data + 2) (s.m_Length - 2) =
        InputByteStream.mk (s.m_Data + 1 + 1) (s.m_Length - 1 - 1)
      congr 1
  · intro h
    have h1 := ReadUInt16_of_le mem s (by omega)
    have h2 := ReadUInt16_of_le mem { m_Data := s.m_Data + 2, m_Length := s.m_Length - 2 }
      (show 2 ≤ s.m_Length - 2 by omega)
    refine ⟨bufbe16toh mem s.m_Data, bufbe16toh mem (s.m_Data + 2), ?_, ?_, ?_, ?_⟩
    · rw [h1]
    · rw [h1, h2]
    · rw [ReadUInt32_of_le mem s h, bufbe32toh_split]
    · rw [ReadUInt32_of_le mem s h, h1, h2]
      show InputByteStream.mk (s.m_Data + 4) (s.m_Length - 4) =
        InputByteStream.mk (s.m_Data + 2 + 2) (s.m_Length - 2 - 2)
      congr 1
  · intro h
    have h1 := ReadUInt32_of_le mem s (by omega)
    have h2 := ReadUInt32_of_le mem { m_Data := s.m_Data + 4, m_Length := s.m_Length - 4 }
      (show 4 ≤ s.m_Length - 4 by omega)
    refine ⟨bufbe32toh mem s.m_Data, bufbe32toh mem (s.m_Data + 4), ?_, ?_, ?_, ?_⟩
    · rw [h1]
    · rw [h1, h2]
    · rw [ReadUInt64_of_le mem s h, bufbe64toh_split]
    · rw [ReadUInt64_of_le mem s h, h1, h2]
      show InputByteStream.mk (s.m_Data + 8) (s.m_Length - 8) =
        InputByteStream.mk (s.m_Data + 4 + 4) (s.m_Length - 4 - 4)
      congr 1
  · intro a b h
    have h1 := ReadBytes_of_le s a (by omega)
    have h2 := ReadBytes_of_le { m_Data := s.m_Data + a, m_Length := s.m_Length - a } b
      (show b ≤ s.m_Length - a by omega)
    have h3 := ReadBytes_of_le s (a + b) h
    refine ⟨s.m_Data, s.m_Data + a, ?_, ?_, ?_, rfl, ?_⟩
    · rw [h1]
    · rw [h1, h2]
    · rw [h3]
    · rw [h1, h2, h3]
      show InputByteStream.mk (s.m_Data + a + b) (s.m_Length - a - b) =
        InputByteStream.mk (s.m_Data + (a + b)) (s.m_Length - (a + b))
      congr 1 <;> omega

/-- Witness of C20: a 32-bit read against two 16-bit reads with 5 bytes
remaining at address 3. -/
theorem reads_compose_witness :
    ∃ hi lo : Nat,
      (InputByteStream.ReadUInt16 sampleMemory ⟨3, 5⟩).1 = .ok hi ∧
      ((InputByteStream.ReadUInt16 sampleMemory ⟨3, 5⟩).2.ReadUInt16 sampleMemory).1 = .ok lo ∧
      (InputByteStream.ReadUInt32 sampleMemory ⟨3, 5⟩).1 = .ok (hi * 2 ^ 16 + lo) ∧
      (InputByteStream.ReadUInt32 sampleMemory ⟨3, 5⟩).2 =
        ((InputByteStream.ReadUInt16 sampleMemory ⟨3, 5⟩).2.ReadUInt16 sampleMemory).2 :=
  (reads_compose sampleMemory ⟨3, 5⟩).2.1 (by decide)

/-! ## Output cursor: the written prefix -/

theorem bytesAt_length (mem : Memory) (base n : Nat) : (bytesAt mem base n).length = n := by
  simp [bytesAt]

theorem bytesAt_add (mem : Memory) (base a b : Nat) :
    bytesAt mem base (a + b) = bytesAt mem base a ++ bytesAt mem (base + a) b := by
  simp [bytesAt, List.range_add, Nat.add_assoc, Function.comp_def]

theorem bytesAt_congr (mem mem' : Memory) (base n : Nat)
    (h : ∀ a, base ≤ a → a < base + n → mem' a = mem a) :
    bytesAt mem' base n = bytesAt mem base n := by
  apply List.map_congr_left
  intro i hi
  rw [List.mem_range] at hi
  exact h (base + i) (by omega) (by omega)

theorem bytesAt_memcpy (mem : Memory) (base : Nat) (src : Nat → Byte) (n : Nat) :
    bytesAt (memcpy mem base src n) base n = (List.range n).map src := by
  apply List.map_congr_left
  intro i hi
  rw [List.mem_range] at hi
  simp [memcpy, hi]

theorem map_arrayPtr (buf : List Byte) : (List.range buf.length).map (arrayPtr buf) = buf := by
  apply List.ext_getElem
  · simp
  · intro i h1 h2
    simp [arrayPtr, h2]

theorem write_call_eq (c : OutputCall) (hc : c.isWrite = true) :
    ∃ (data : Option (Nat → Byte)) (len : Nat),
      (∀ mem s, c.run mem s = OutputByteStream.WriteData mem s data len) ∧
      (data = none → c.bytes = []) ∧
      (∀ src, data = some src → c.bytes = (List.range len).map src) := by
  cases c with
  | ProduceData amount => simp [OutputCall.isWrite] at hc
  | WriteData data len =>
    refine ⟨data, len, fun _ _ => rfl, ?_, ?_⟩
    · intro h
      subst h
      rfl
    · intro src h
      subst h
      rfl
  | WriteUInt8 b =>
    refine ⟨some (arrayPtr [b]), 1, fun _ _ => rfl, by simp, ?_⟩
    intro src h
    cases h
    exact (map_arrayPtr [b]).symm
  | WriteUInt16 v =>
    refine ⟨some (arrayPtr (htobe16buf v)), 2, fun _ _ => rfl, by simp, ?_⟩
    intro src h
    cases h
    have hl : (htobe16buf v).length = 2 := beEncode_length 2 v
    have hm := map_arrayPtr (htobe16buf v)
    rw [hl] at hm
    exact hm.symm
  | WriteUInt32 v =>
    refine ⟨some (arrayPtr (htobe32buf v)), 4, fun _ _ => rfl, by simp, ?_⟩
    intro src h
    cases h
    have hl : (htobe32buf v).length = 4 := beEncode_length 4 v
    have hm := map_arrayPtr (htobe32buf v)
    rw [hl] at hm
    exact hm.symm
  | WriteUInt64 v =>
    refine ⟨some (arrayPtr (htobe64buf v)), 8, fun _ _ => rfl, by simp, ?_⟩
    intro src h
    cases h
    have hl : (htobe64buf v).length = 8 := beEncode_length 8 v
    have hm := map_arrayPtr (htobe64buf v)
    rw [hl] at hm
    exact hm.symm

theorem write_step (c : OutputCall) (hc : c.isWrite = true) (mem : Memory)
    (s : OutputByteStream) (hwf : s.wellFormed) :
    ((∃ e, (c.run mem s).1 = .error e) ∧ (c.run mem s).2 = (mem, s)) ∨
    ((c.run mem s).1 = .ok () ∧
      (c.run mem s).2.2.m_Data = s.m_Data + c.bytes.length ∧
      (c.run mem s).2.2.m_Counter = s.m_Counter + c.bytes.length ∧
      bytesAt (c.run mem s).2.1 s.m_Data c.bytes.length = c.bytes ∧
      ∀ a, (a < s.m_Data ∨ s.m_Data + c.bytes.length ≤ a) → (c.run mem s).2.1 a = mem a) := by
  obtain ⟨data, len, hrun, hnone, hsome⟩ := write_call_eq c hc
  rw [hrun mem s]
  by_cases h0 : len = 0
  · subst h0
    right
    have hb : c.bytes = [] := by
      cases data with
      | none => exact hnone rfl
      | some src => simpa using hsome src rfl
    rw [WriteData_of_zero, hb]
    exact ⟨rfl, rfl, rfl, rfl, fun _ _ => rfl⟩
  · cases data with
    | none =>
      left
      rw [WriteData_of_null mem s len (by omega)]
      exact ⟨⟨_, rfl⟩, rfl⟩
    | some src =>
      by_cases h : len > s.m_Length
      · left
        rw [WriteData_of_gt mem s src len h]
        exact ⟨⟨_, rfl⟩, rfl⟩
      · right
        have hle : len ≤ s.m_Length := by omega
        have hb : c.bytes.length = len := by simp [hsome src rfl]
        rw [WriteData_of_le mem s src len (by omega) hle, counter_add_lt s len hwf hle, hb]
        refine ⟨rfl, rfl, rfl, ?_, ?_⟩
        · show bytesAt (memcpy mem s.m_Data src len) s.m_Data len = c.bytes
          rw [bytesAt_memcpy, hsome src rfl]
        · intro a ha
          show memcpy mem s.m_Data src len a = mem a
          have hn : ¬ (s.m_Data ≤ a ∧ a < s.m_Data + len) := by omega
          simp only [memcpy]
          rw [if_neg hn]

theorem runCalls_written (calls : List OutputCall) (hw : ∀ c ∈ calls, c.isWrite = true)
    (st : Memory × OutputByteStream) (hwf : st.2.wellFormed) :
    (runCalls calls st).2.m_Data =
      st.2.m_Data + (successfulWrites calls st).flatten.length ∧
    (runCalls calls st).2.m_Counter =
      st.2.m_Counter + (successfulWrites calls st).flatten.length ∧
    bytesAt (runCalls calls st).1 st.2.m_Data (successfulWrites calls st).flatten.length =
      (successfulWrites calls st).flatten ∧
    ∀ a, (a < st.2.m_Data ∨ (runCalls calls st).2.m_Data ≤ a) →
      (runCalls calls st).1 a = st.1 a := by
  induction calls generalizing st with
  | nil =>
    simp [runCalls, successfulWrites, bytesAt]
  | cons c cs ih =>
    have hc : c.isWrite = true := hw c (List.mem_cons_self _ _)
    have hcs : ∀ c' ∈ cs, c'.isWrite = true := fun c' h' => hw c' (List.mem_cons_of_mem _ h')
    have hwf1 := (OutputCall_run_preserves c st.1 st.2 hwf).1
    obtain ⟨i1, i2, i3, i4⟩ := ih hcs (c.run st.1 st.2).2 hwf1
    rcases write_step c hc st.1 st.2 hwf with ⟨⟨e, he⟩, hst⟩ | ⟨hok, hd, hcnt, hby, hfr⟩
    · have hws : successfulWrites (c :: cs) st = successfulWrites cs (c.run st.1 st.2).2 := by
        simp only [successfulWrites, he]
      simp only [runCalls, hws]
      rw [hst] at i1 i2 i3 i4 ⊢
      exact ⟨i1, i2, i3, i4⟩
    · have hws : successfulWrites (c :: cs) st =
          c.bytes :: successfulWrites cs (c.run st.1 st.2).2 := by
        simp only [successfulWrites, hok]
      simp only [runCalls, hws, List.flatten_cons, List.length_append]
      refine ⟨by omega, by omega, ?_, ?_⟩
      · rw [bytesAt_add, ← hd, i3]
        congr 1
        refine (bytesAt_congr _ _ _ _ ?_).trans hby
        intro a h1 h2
        exact i4 a (Or.inl (by omega))
      · intro a ha
        rw [i4 a (by omega)]
        exact hfr a (by omega)

/-- C19: for an output cursor constructed at `p` with a length that is a
`std::size_t`, over memory with initial contents `B`, and any sequence of
`WriteData` and `WriteUInt8/16/32/64` calls: the bytes from `GetData()` up to
`GetPosition()` are the concatenation, in call order, of the byte strings of
the calls that returned normally (a zero-length write contributing the empty
string, a call that threw contributing nothing), the produced count is the
sum of their lengths, and every byte at or beyond `GetPosition()` is still
the byte of `B`. -/
theorem written_bytes (B : Memory) (p L : Nat) (calls : List OutputCall)
    (hL : L < SIZE_MOD) (hw : ∀ c ∈ calls, c.isWrite = true) :
    memoryRange (runCalls calls (B, OutputByteStream.construct p L)).1
        (runCalls calls (B, OutputByteStream.construct p L)).2.GetData
        (runCalls calls (B, OutputByteStream.construct p L)).2.GetPosition =
      (successfulWrites calls (B, OutputByteStream.construct p L)).flatten ∧
    (runCalls calls (B, OutputByteStream.construct p L)).2.m_Counter =
      ((successfulWrites calls (B, OutputByteStream.construct p L)).map List.length).sum ∧
    ∀ a, (runCalls calls (B, OutputByteStream.construct p L)).2.GetPosition ≤ a →
      (runCalls calls (B, OutputByteStream.construct p L)).1 a = B a := by
  obtain ⟨h1, h2, h3, h4⟩ := runCalls_written calls hw (B, OutputByteStream.construct p L)
    (construct_wellFormed p L hL)
  have hp : (OutputByteStream.construct p L).m_Data = p := rfl
  have hc : (OutputByteStream.construct p L).m_Counter = 0 := rfl
  simp only [hp, hc, Nat.zero_add] at h1 h2 h3 h4
  refine ⟨?_, ?_, ?_⟩
  · rw [memoryRange, OutputByteStream.GetData, OutputByteStream.GetPosition, h1, h2]
    rw [Nat.add_sub_cancel, Nat.add_sub_cancel_left]
    exact h3
  · rw [h2, List.length_flatten]
  · intro a ha
    exact h4 a (Or.inr ha)

/-- Witness of C19: a 16-bit write, a 64-bit write that overflows, an empty
write and a one-byte write into a buffer of 5 bytes at address 10. -/
theorem written_bytes_witness :
    memoryRange
        (runCalls [.WriteUInt16 513, .WriteUInt64 7, .WriteData none 0, .WriteUInt8 9]
          (sampleMemory, OutputByteStream.construct 10 5)).1
        (runCalls [.WriteUInt16 513, .WriteUInt64 7, .WriteData none 0, .WriteUInt8 9]
          (sampleMemory, OutputByteStream.construct 10 5)).2.GetData
        (runCalls [.WriteUInt16 513, .WriteUInt64 7, .WriteData none 0, .WriteUInt8 9]
          (sampleMemory, OutputByteStream.construct 10 5)).2.GetPosition =
      (successfulWrites [.WriteUInt16 513, .WriteUInt64 7, .WriteData none 0, .WriteUInt8 9]
        (sampleMemory, OutputByteStream.construct 10 5)).flatten :=
  (written_bytes sampleMemory 10 5
    [.WriteUInt16 513, .WriteUInt64 7, .WriteData none 0, .WriteUInt8 9]
    (by decide) (by decide)).1

/-! ## Hex dump: the loop and the row structure -/

theorem String_foldl_append (l : List String) (acc : String) :
    l.foldl (fun r s => r ++ s) acc = acc ++ String.join l := by
  induction l generalizing acc with
  | nil => simp [String.join]
  | cons a l ih =>
    simp only [String.join, List.foldl_cons] at ih ⊢
    rw [ih (acc ++ a), ih ("" ++ a)]
    simp [String.append_assoc]

theorem String_join_nil : String.join [] = "" := rfl

theorem String_join_cons (a : String) (l : List String) :
    String.join (a :: l) = a ++ String.join l := by
  have h := String_foldl_append l ("" ++ a)
  simp only [String.join, List.foldl_cons] at h ⊢
  rw [h]
  simp

theorem intercalate_go (sep : String) (l : List String) (acc : String) :
    String.intercalate.go acc sep l = acc ++ String.join (l.map (fun g => sep ++ g)) := by
  induction l generalizing acc with
  | nil => simp [String.intercalate.go, String_join_nil]
  | cons a l ih =>
    simp only [String.intercalate.go, List.map_cons, String_join_cons]
    rw [ih]
    simp [String.append_assoc]

theorem intercalate_cons (sep a : String) (l : List String) :
    String.intercalate sep (a :: l) = a ++ String.join (l.map (fun g => sep ++ g)) := by
  simp only [String.intercalate]
  exact intercalate_go sep l a

theorem chunks_nil {α : Type} (n : Nat) (hn : 0 < n) : chunks n ([] : List α) = [] := by
  have h : (n - 1) / n = 0 := Nat.div_eq_of_lt (by omega)
  simp [chunks, h]

theorem chunks_cons {α : Type} (n : Nat) (hn : 0 < n) (l : List α) (hl : l ≠ []) :
    chunks n l = l.take n :: chunks n (l.drop n) := by
  have hlen : 0 < l.length := List.length_pos.mpr hl
  have h1 : (l.length + n - 1) / n = (l.length - 1) / n + 1 := by
    have : l.length + n - 1 = (l.length - 1) + n := by omega
    rw [this, Nat.add_div_right _ hn]
  have h2 : ((l.drop n).length + n - 1) / n = (l.length - 1) / n := by
    rw [List.length_drop]
    by_cases h : n ≤ l.length
    · congr 1
      omega
    · have e1 : l.length - n + n - 1 = n - 1 := by omega
      rw [e1, Nat.div_eq_of_lt (by omega), Nat.div_eq_of_lt (by omega)]
  simp only [chunks, h1, h2, List.range_succ_eq_map, List.map_cons, List.map_map]
  congr 1
  · simp
  · apply List.map_congr_left
    intro k _
    simp only [Function.comp, List.drop_drop]
    congr 2
    rw [Nat.succ_mul]
    omega


theorem hexGroup_nil : hexGroup [] = "" := rfl

theorem hexGroup_cons (b : Byte) (g : List Byte) :
    hexGroup (b :: g) = hexPair b ++ " " ++ hexGroup g := by
  simp only [hexGroup, List.map_cons, String_join_cons]

theorem hexSeps_nil : hexSeps [] = "" := by
  simp [hexSeps, chunks_nil, String_join_nil]

theorem hexSeps_cons (y : List Byte) (hy : y ≠ []) :
    hexSeps y = " |  " ++ (hexGroup (y.take 8) ++ hexSeps (y.drop 8)) := by
  simp only [hexSeps]
  rw [chunks_cons 8 (by decide) y hy]
  simp only [List.map_cons, String_join_cons, String.append_assoc]

theorem hexRows_nil : hexRows [] = "" := by
  simp [hexRows, chunks_nil, String_join_nil]

theorem hexRow_eq (x : List Byte) (hx : x ≠ []) :
    hexRow x = "\n\t |  " ++ (hexGroup (x.take 8) ++ (hexSeps (x.drop 8) ++ " |")) := by
  simp only [hexRow, hexSeps]
  rw [chunks_cons 8 (by decide) x hx]
  simp only [List.map_cons, intercalate_cons, String.append_assoc, List.map_map,
    Function.comp_def]

theorem hexRows_cons (z : List Byte) (hz : z ≠ []) :
    hexRows z = "\n\t |  " ++ (hexGroup ((z.take 32).take 8) ++
      (hexSeps ((z.take 32).drop 8) ++ (" |" ++ hexRows (z.drop 32)))) := by
  have hx : z.take 32 ≠ [] := by
    cases z with
    | nil => exact absurd rfl hz
    | cons a t => simp
  simp only [hexRows]
  rw [chunks_cons 32 (by decide) z hz]
  simp only [List.map_cons, String_join_cons, hexRow_eq _ hx, String.append_assoc]

theorem hexTail_single (r r8 : Nat) (b : Byte) :
    hexTail r r8 [b] = hexPair b ++ " " ++ (" |" ++ "\n\t") := by
  simp [hexTail]

theorem hexTail_cons (r r8 : Nat) (b : Byte) (rest : List Byte) (h : rest ≠ []) :
    hexTail r r8 (b :: rest) =
      hexPair b ++ " " ++ ((if r = 1 then " |" ++ "\n\t" else "") ++
        ((if r8 = 1 then " |  " else "") ++
          hexTail (if r = 1 then 32 else r - 1) (if r8 = 1 then 8 else r8 - 1) rest)) := by
  cases rest with
  | nil => exact absurd rfl h
  | cons b' t => rw [hexTail]

theorem hexHeader_eq : "\n\t |  " = "\n\t" ++ " |  " := by decide

theorem hexTail_eq (l : List Byte) (hl : l ≠ []) (r r8 : Nat) (h1 : 1 ≤ r8) (h2 : r8 ≤ r)
    (h3 : r ≤ 32) (h4 : r8 ≤ 8) (h5 : (r - r8) % 8 = 0) :
    hexTail r r8 l =
      hexGroup ((l.take r).take r8) ++ (hexSeps ((l.take r).drop r8) ++
        (" |" ++ (hexRows (l.drop r) ++ "\n\t"))) := by
  induction l generalizing r r8 with
  | nil => exact absurd rfl hl
  | cons b l' ih =>
    obtain ⟨r0, rfl⟩ : ∃ r0, r = r0 + 1 := ⟨r - 1, by omega⟩
    obtain ⟨q, rfl⟩ : ∃ q, r8 = q + 1 := ⟨r8 - 1, by omega⟩
    rw [List.take_succ_cons, List.drop_succ_cons, List.take_succ_cons, List.drop_succ_cons,
      hexGroup_cons]
    by_cases hne : l' = []
    · subst hne
      rw [hexTail_single]
      simp only [List.take_nil, List.drop_nil, hexGroup_nil, hexSeps_nil, hexRows_nil,
        String.append_assoc, String.append_empty, String.empty_append]
    · rw [hexTail_cons _ _ _ _ hne]
      by_cases hr : r0 = 0
      · subst hr
        have hq : q = 0 := by omega
        subst hq
        have e1 : 0 + 1 = 1 := rfl
        simp only [if_pos e1, if_true]
        rw [ih hne 32 8 (by decide) (by decide) (by decide) (by decide) (by decide)]
        simp only [List.take_zero, List.drop_zero, List.take_nil, List.drop_nil]
        rw [hexRows_cons _ hne, hexHeader_eq]
        simp only [hexGroup_nil, hexSeps_nil, String.append_assoc,
          String.append_empty, String.empty_append]
      · obtain ⟨r1, rfl⟩ : ∃ r1, r0 = r1 + 1 := ⟨r0 - 1, by omega⟩
        have hr1 : ¬ (r1 + 1 + 1 = 1) := by omega
        by_cases hq : q = 0
        · subst hq
          have hx : l'.take (r1 + 1) ≠ [] := by
            cases l' with
            | nil => exact absurd rfl hne
            | cons a t => simp
          have e1 : 0 + 1 = 1 := rfl
          simp only [if_pos e1, if_true, if_neg hr1, Nat.add_sub_cancel]
          rw [ih hne (r1 + 1) 8 (by decide) (by omega) (by omega) (by decide) (by omega)]
          simp only [List.take_zero, List.drop_zero]
          rw [hexSeps_cons _ hx]
          simp only [hexGroup_nil, String.append_assoc,
            String.append_empty, String.empty_append]
        · obtain ⟨q1, rfl⟩ : ∃ q1, q = q1 + 1 := ⟨q - 1, by omega⟩
          have hq1 : ¬ (q1 + 1 + 1 = 1) := by omega
          simp only [if_neg hr1, if_neg hq1, Nat.add_sub_cancel]
          rw [ih hne (r1 + 1) (q1 + 1) (by omega) (by omega) (by omega) (by omega)
            (by omega)]
          simp only [String.append_assoc, String.append_empty, String.empty_append]

set_option maxRecDepth 100000 in
theorem hexByteText_eq : ∀ b : Byte, hexByteText b = hexPair b := by decide

theorem hexLoopBody_last (data : Nat → Byte) (size : Nat) (st : HexLoop) (i : Nat)
    (hi : i = size - 1) :
    (hexLoopBody data size st i).hex = st.hex ++ (hexPair (data i) ++ " " ++ (" |" ++ "\n\t")) := by
  simp [hexLoopBody, hi, hexByteText_eq, String.append_assoc]

theorem hexLoopBody_inner (data : Nat → Byte) (size : Nat) (st : HexLoop) (i : Nat)
    (hi : i ≠ size - 1) :
    (hexLoopBody data size st i).hex =
      st.hex ++ (hexPair (data i) ++ " " ++ ((if st.count + 1 = 32 then " |" ++ "\n\t" else "") ++
        (if st.sub_count + 1 = 8 then " |  " else ""))) ∧
    (hexLoopBody data size st i).count = (if st.count + 1 = 32 then 0 else st.count + 1) ∧
    (hexLoopBody data size st i).sub_count =
      (if st.sub_count + 1 = 8 then 0 else st.sub_count + 1) := by
  by_cases hc : st.count = 31 <;> by_cases hs : st.sub_count = 7 <;>
    simp [hexLoopBody, hi, hc, hs, hexByteText_eq, String.append_assoc]

theorem hexLoop_eq (data : Nat → Byte) (size : Nat) (n k : Nat) (st : HexLoop)
    (hk : k + n = size) (hc : st.count = k % 32) (hs : st.sub_count = k % 8) :
    ((List.range' k n).foldl (hexLoopBody data size) st).hex =
      st.hex ++ hexTail (32 - k % 32) (8 - k % 8) ((List.range' k n).map data) := by
  induction n generalizing k st with
  | zero => simp [hexTail]
  | succ n ih =>
    rw [List.range'_succ, List.foldl_cons, List.map_cons]
    cases n with
    | zero =>
      have hi : k = size - 1 := by omega
      simp only [List.range'_zero, List.foldl_nil, List.map_nil]
      rw [hexLoopBody_last data size st k hi, hexTail_single]
    | succ m =>
      have hi : k ≠ size - 1 := by omega
      obtain ⟨e1, e2, e3⟩ := hexLoopBody_inner data size st k hi
      have hne : (List.range' (k + 1) (m + 1)).map data ≠ [] := by
        simp [List.range'_succ]
      rw [ih (k + 1) (hexLoopBody data size st k) (by omega)
        (by rw [e2, hc]; split <;> omega) (by rw [e3, hs]; split <;> omega)]
      rw [hexTail_cons _ _ _ _ hne, e1, hc, hs]
      have c1 : (k % 32 + 1 = 32) ↔ (32 - k % 32 = 1) := by omega
      have c2 : (k % 8 + 1 = 8) ↔ (8 - k % 8 = 1) := by omega
      have a1 : (if 32 - k % 32 = 1 then 32 else 32 - k % 32 - 1) = 32 - (k + 1) % 32 := by
        split <;> omega
      have a2 : (if 8 - k % 8 = 1 then 8 else 8 - k % 8 - 1) = 8 - (k + 1) % 8 := by
        split <;> omega
      simp only [c1, c2, a1, a2, String.append_assoc]

theorem hexTrailer_eq : "\n\t\n" = "\n\t" ++ "\n" := by decide

theorem GetFormattedHex_eq_hexDump (data : Nat → Byte) (size : Nat) (h : 0 < size) :
    GetFormattedHex data size = hexDump ((List.range size).map data) := by
  have hne : (List.range size).map data ≠ [] := by
    intro h0
    have := congrArg List.length h0
    simp at this
    omega
  have hl := hexLoop_eq data size size 0 { hex := "\n\t" ++ " |  ", count := 0, sub_count := 0 }
    (by omega) rfl rfl
  rw [← List.range_eq_range'] at hl
  have ht := hexTail_eq _ hne 32 8 (by decide) (by decide) (by decide) (by decide) (by decide)
  have hd : hexDump ((List.range size).map data) = hexRows ((List.range size).map data) ++ "\n\t\n" :=
    rfl
  rw [GetFormattedHex, hl, hd, hexRows_cons _ hne, hexTrailer_eq, hexHeader_eq]
  simp only [Nat.zero_mod, Nat.sub_zero, ht, String.append_assoc]

theorem hexDump_33 (data : Nat → Byte) :
    hexDump ((List.range 33).map data) =
      hexRow ((List.range 32).map data) ++ hexRow [data 32] ++ "\n\t\n" := by
  have h1 : (List.range 33).map data = (List.range 32).map data ++ [data 32] := by
    rw [List.range_succ, List.map_append]
    rfl
  have hlen : ((List.range 32).map data).length = 32 := by simp
  have hne : (List.range 32).map data ++ [data 32] ≠ [] := by simp
  rw [h1, hexDump, chunks_cons 32 (by decide) _ hne, List.take_left' hlen,
    List.drop_left' hlen, chunks_cons 32 (by decide) [data 32] (by simp)]
  simp [chunks_nil, String_join_cons, String_join_nil, String.append_assoc]

theorem GetFormattedHex_succ (data : Nat → Byte) (n : Nat) :
    GetFormattedHex data (n + 1) =
      ((List.range n).foldl (hexLoopBody data (n + 1))
        { hex := "\n\t" ++ " |  ", count := 0, sub_count := 0 }).hex ++
      (hexPair (data n) ++ " " ++ (" |" ++ "\n\t")) ++ "\n" := by
  rw [GetFormattedHex, List.range_succ, List.foldl_append, List.foldl_cons, List.foldl_nil,
    hexLoopBody_last data (n + 1) _ n (by omega)]

theorem GetFormattedHex_8 (data : Nat → Byte) :
    GetFormattedHex data 8 =
      "\n\t |  " ++ hexGroup ((List.range 8).map data) ++ " |" ++ "\n\t" ++ "\n" := by
  rw [GetFormattedHex_eq_hexDump data 8 (by decide), hexDump,
    chunks_cons 32 (by decide) _ (by simp [List.range_succ])]
  have hlen : ((List.range 8).map data).length = 8 := by simp
  have ht : ((List.range 8).map data).take 32 = (List.range 8).map data :=
    List.take_of_length_le (by omega)
  have hd : ((List.range 8).map data).drop 32 = [] := List.drop_of_length_le (by omega)
  have ht8 : ((List.range 8).map data).take 8 = (List.range 8).map data :=
    List.take_of_length_le (by omega)
  have hd8 : ((List.range 8).map data).drop 8 = [] := List.drop_of_length_le (by omega)
  rw [ht, hd, chunks_nil 32 (by decide), List.map_cons, List.map_nil, String_join_cons,
    String_join_nil, hexRow_eq _ (by simp [List.range_succ]), ht8, hd8,
    hexSeps_nil, hexTrailer_eq]
  simp only [String.append_assoc, String.append_empty, String.empty_append]

/-- C15: for every non-empty buffer, `GetFormattedHex` returns the
concatenation, over the consecutive chunks of 32 bytes of the buffer, of one
row for each chunk, followed by `"\n\t\n"`; a row being the leading marker
`"\n\t |  "`, the groups of 8 bytes of the chunk joined by `" |  "`, each byte
as two lower-case hexadecimal digits and a space, and the trailing marker
`" |"`.  A buffer of 33 bytes gives two rows, one of 32 bytes and one of 1. -/
theorem hexdump_rows (data : Nat → Byte) (size : Nat) (h : 0 < size) :
    GetFormattedHex data size = hexDump ((List.range size).map data) ∧
    GetFormattedHex data 33 =
      hexRow ((List.range 32).map data) ++ hexRow [data 32] ++ "\n\t\n" := by
  constructor
  · exact GetFormattedHex_eq_hexDump data size h
  · rw [GetFormattedHex_eq_hexDump data 33 (by decide), hexDump_33]

/-- Witness of C15: a buffer of 33 bytes. -/
theorem hexdump_rows_witness :
    GetFormattedHex sampleMemory 33 = hexDump ((List.range 33).map sampleMemory) :=
  (hexdump_rows sampleMemory 33 (by decide)).1

/-- C16, as the code has it: for an empty buffer `GetFormattedHex` returns the
leading row marker `"\n\t |  "` followed directly by the final newline, with
no digits and no trailing row marker. -/
theorem hexdump_empty (data : Nat → Byte) :
    GetFormattedHex data 0 = "\n\t |  " ++ "\n" := by
  simp only [GetFormattedHex, List.range_zero, List.foldl_nil]
  decide

/-- C16 as stated fails: for an empty buffer the result is not the header,
the footer `" |" ++ "\n\t"` and the final newline. -/
theorem hexdump_of_empty_lacks_footer :
    GetFormattedHex sampleMemory 0 ≠ "\n\t |  " ++ (" |" ++ "\n\t") ++ "\n" := by
  decide

/-- C17: for a buffer of `n + 1` bytes, what `GetFormattedHex` returns is the
text emitted for the first `n` bytes, the two digits of the last byte and a
space, one closing marker `" |" ++ "\n\t"` and the final newline, with no
separator and no second closing marker in between.  The single byte 0xAB
gives `"\n\t |  ab  |\n\t\n"`, and a buffer of 8 bytes gives the header, the
eight digit pairs, one closing marker and the final newline. -/
theorem hexdump_ending (data : Nat → Byte) (n : Nat) :
    GetFormattedHex data (n + 1) =
      ((List.range n).foldl (hexLoopBody data (n + 1))
        { hex := "\n\t" ++ " |  ", count := 0, sub_count := 0 }).hex ++
      (hexPair (data n) ++ " " ++ (" |" ++ "\n\t")) ++ "\n" ∧
    GetFormattedHex (fun _ => 0xAB) 1 = "\n\t |  ab  |\n\t\n" ∧
    GetFormattedHex data 8 =
      "\n\t |  " ++ hexGroup ((List.range 8).map data) ++ " |" ++ "\n\t" ++ "\n" := by
  refine ⟨GetFormattedHex_succ data n, ?_, GetFormattedHex_8 data⟩
  decide

/-! ## Address encoding -/

theorem AddressToByteVector_v4 (bytes : List Byte) (h : bytes.length = 4) :
    AddressToByteVector (.v4 bytes h) = bytes := by
  have hm := map_arrayPtr bytes
  rw [h] at hm
  simp only [AddressToByteVector, Address.is_v4, Address.to_v4_bytes, if_true,
    List.length_replicate]
  rw [bytesAt_memcpy, hm]

theorem AddressToByteVector_v6 (bytes : List Byte) (h : bytes.length = 16) :
    AddressToByteVector (.v6 bytes h) = bytes := by
  have hm := map_arrayPtr bytes
  rw [h] at hm
  simp only [AddressToByteVector, Address.is_v4, Address.to_v6_bytes,
    List.length_replicate]
  simp only [Bool.false_eq_true, if_false]
  rw [bytesAt_memcpy, hm]

/-- C18: `AddressToByteVector` returns 4 bytes for an IPv4 address and 16 for
an IPv6 address, and they are the bytes of the address in network order
(what `to_bytes()` gives); 192.0.2.1 gives `[192, 0, 2, 1]` and `::1` gives
fifteen zero bytes followed by 1. -/
theorem AddressToByteVector_spec (address : Address) :
    (address.is_v4 = true →
      (AddressToByteVector address).length = 4 ∧
      AddressToByteVector address = address.to_v4_bytes) ∧
    (address.is_v4 = false →
      (AddressToByteVector address).length = 16 ∧
      AddressToByteVector address = address.to_v6_bytes) ∧
    AddressToByteVector (.v4 [192, 0, 2, 1] rfl) = [192, 0, 2, 1] ∧
    AddressToByteVector (.v6 (List.replicate 15 0 ++ [1]) (by decide)) =
      List.replicate 15 0 ++ [1] := by
  refine ⟨?_, ?_, AddressToByteVector_v4 _ _, AddressToByteVector_v6 _ _⟩
  · intro hv
    cases address with
    | v4 bytes h => exact ⟨by rw [AddressToByteVector_v4, h], AddressToByteVector_v4 bytes h⟩
    | v6 bytes h => simp [Address.is_v4] at hv
  · intro hv
    cases address with
    | v4 bytes h => simp [Address.is_v4] at hv
    | v6 bytes h => exact ⟨by rw [AddressToByteVector_v6, h], AddressToByteVector_v6 bytes h⟩

/-- Witness of C18: the IPv4 address 10.0.0.1. -/
theorem AddressToByteVector_spec_witness :
    (AddressToByteVector (.v4 [10, 0, 0, 1] rfl)).length = 4 ∧
    AddressToByteVector (.v4 [10, 0, 0, 1] rfl) = [10, 0, 0, 1] :=
  (AddressToByteVector_spec (.v4 [10, 0, 0, 1] rfl)).1 rfl

end kovri.core
